import Mathlib

/-!
Verification of the shop-inventory core of the archives-of-nethys-scraper
repository (files search_service.py, shop_generator.py, aon_item_loader.py),
as a shallow embedding in Lean 4.

Modelling conventions:
- Python dict[int, v] is an association list with unique keys, built only
  through the operations below, which mirror insertion-order dict semantics.
- Python float weights are modelled as rationals (every IEEE float is a
  rational; the code only adds and compares them).  The weights produced by
  shop_generator use math.exp and are modelled over the reals.
- Randomness (random.choice, random.choices, random.randrange) is modelled by
  an explicit oracle stream of naturals; each primitive consumes one stream
  value and uses it as an index.  All theorems quantify over the oracle.
- Python exceptions are modelled with Except String; a raised exception is an
  error value and propagates through the do-notation like an exception.
- Python str is Lean String; the string helpers used by the code (split,
  replace, join, lower, int(), str()) are modelled by structurally recursive
  functions below, faithful to CPython behaviour on the inputs that arise
  here (ASCII text, sign-and-digits integer literals).
-/

/-- Python dict assignment d[k] = v on an association list: replaces the value
at the first occurrence of the key, keeping its position, or appends a new
entry at the end (insertion order), exactly as CPython dicts do. -/
def dictSet {κ α : Type} [DecidableEq κ] (d : List (κ × α)) (k : κ) (v : α) : List (κ × α) :=
  match d with
  | [] => [(k, v)]
  | (k', v') :: rest => if k' = k then (k, v) :: rest else (k', v') :: dictSet rest k v

/-- Python defaultdict(list) append d[k].append(v): extends the list at the
key, creating the key at the end if absent. -/
def dictAppendAt {κ α : Type} [DecidableEq κ] (d : List (κ × List α)) (k : κ) (v : α) : List (κ × List α) :=
  match d with
  | [] => [(k, [v])]
  | (k', l) :: rest => if k' = k then (k', l ++ [v]) :: rest else (k', l) :: dictAppendAt rest k v

/-- Python dict lookup d[k] (and the membership test k in d, via isSome). -/
def alookup {κ α : Type} [DecidableEq κ] (k : κ) : List (κ × α) → Option α
  | [] => none
  | (k', v) :: rest => if k = k' then some v else alookup k rest

/-- The random-oracle state: an infinite stream of naturals and a position.
Each random primitive reads one value and advances the position. -/
structure Rng where
  stream : ℕ → ℕ
  pos : ℕ

/-- Read one oracle value. -/
def Rng.next (g : Rng) : ℕ × Rng := (g.stream g.pos, ⟨g.stream, g.pos + 1⟩)

/-- Model of random.choice(seq): uniform pick of one element; raises
IndexError on an empty sequence.  The oracle value selects the index. -/
def pyChoice {α : Type} (l : List α) (g : Rng) : Except String (α × Rng) :=
  if h : l.length = 0 then .error "IndexError: cannot choose from an empty sequence"
  else
    let (n, g') := g.next
    .ok (l.get ⟨n % l.length, Nat.mod_lt _ (Nat.pos_of_ne_zero h)⟩, g')

/-- Model of random.choices(population, weights=w)[0]: raises ValueError when
the weight total is not positive or the lengths differ (and IndexError when
both lists are empty), otherwise returns one element of the population.  The
oracle value selects the index; every index is selectable, which matches the
support of the CPython procedure whenever all weights are positive. -/
def pyChoices {α : Type} (pop : List α) (ws : List ℚ) (g : Rng) : Except String (α × Rng) :=
  if pop.length ≠ ws.length then .error "ValueError: weights do not match population"
  else if h : pop.length = 0 then .error "IndexError: empty population"
  else if ws.sum ≤ 0 then .error "ValueError: total of weights must be greater than zero"
  else
    let (n, g') := g.next
    .ok (pop.get ⟨n % pop.length, Nat.mod_lt _ (Nat.pos_of_ne_zero h)⟩, g')

/-- Model of random.randrange(lo, hi): raises ValueError on an empty range,
otherwise returns a value in [lo, hi). -/
def pyRandrange (lo hi : ℤ) (g : Rng) : Except String (ℤ × Rng) :=
  if hi ≤ lo then .error "ValueError: empty range for randrange"
  else
    let (n, g') := g.next
    .ok (lo + (n % (hi - lo).toNat : ℕ), g')

/-- ASCII lower-casing of one character, as str.lower does on ASCII text. -/
def lowerChar (c : Char) : Char :=
  if 'A' ≤ c ∧ c ≤ 'Z' then Char.ofNat (c.toNat + 32) else c

/-- Model of str.lower() (the catalog category names are ASCII). -/
def pyLower (s : String) : String := ⟨s.data.map lowerChar⟩

/-- Model of str.split(sep) for a one-character separator: cuts at every
occurrence of the separator; adjacent separators yield empty fields, and the
result is never empty. -/
def splitOnCharAux (sc : Char) : List Char → List Char → List (List Char)
  | [], acc => [acc]
  | c :: rest, acc =>
    if c = sc then acc :: splitOnCharAux sc rest []
    else splitOnCharAux sc rest (acc ++ [c])

/-- Model of str.split(sep) for a two-character separator: scans left to
right, cutting at each non-overlapping occurrence. -/
def splitOnPairAux (c1 c2 : Char) : List Char → List Char → List (List Char)
  | [], acc => [acc]
  | [c], acc => [acc ++ [c]]
  | c :: c' :: rest, acc =>
    if c = c1 ∧ c' = c2 then acc :: splitOnPairAux c1 c2 rest []
    else splitOnPairAux c1 c2 (c' :: rest) (acc ++ [c])

/-- Model of Python str.split(sep) for the separators used by the code,
which are the one-character " " and the two-character ", ". -/
def pySplit (sep s : String) : List String :=
  match sep.data with
  | [sc] => (splitOnCharAux sc s.data []).map List.asString
  | [c1, c2] => (splitOnPairAux c1 c2 s.data []).map List.asString
  | _ => [s]

/-- Model of str.replace(",", ""): removes every comma. -/
def removeCommas (s : String) : String := ⟨s.data.filter (fun c => c ≠ ',')⟩

/-- Model of sep.join(parts). -/
def pyJoin (sep : String) : List String → String
  | [] => ""
  | [s] => s
  | s :: rest => s ++ sep ++ pyJoin sep rest

/-- Substring scan: does the needle occur as a contiguous run in the hay? -/
def listContainsSub (needle : List Char) : List Char → Bool
  | [] => needle.isEmpty
  | c :: rest => needle.isPrefixOf (c :: rest) || listContainsSub needle rest

/-- Model of the Python substring test (sub in s). -/
def pyInStr (sub s : String) : Bool := listContainsSub sub.data s.data

/-- Model of the Python slice s[a:b] (character indices, clamped). -/
def pySlice (s : String) (a b : ℕ) : String := ⟨(s.data.drop a).take (b - a)⟩

/-- Decimal digit characters of a natural number, most significant first,
accumulator style; the fuel argument is always sufficient at n + 1. -/
def natToChars : ℕ → ℕ → List Char → List Char
  | 0, _, acc => acc
  | fuel + 1, n, acc =>
    if n < 10 then Nat.digitChar n :: acc
    else natToChars fuel (n / 10) (Nat.digitChar (n % 10) :: acc)

/-- Model of Python str(n) for a natural number: decimal digits. -/
def natToString (n : ℕ) : String := ⟨natToChars (n + 1) n []⟩

/-- Model of Python str(n) for an integer: decimal digits with a sign. -/
def pyStr (n : ℤ) : String :=
  if n < 0 then "-" ++ natToString (-n).toNat else natToString n.toNat

/-- Digit run parser: consumes characters, requiring every one to be a
decimal digit, and accumulates the value. -/
def parseDigitsAux (a : ℕ) : List Char → Option ℕ
  | [] => some a
  | c :: cs => if c.isDigit then parseDigitsAux (a * 10 + (c.toNat - 48)) cs else none

/-- Parses a non-empty all-digit character run. -/
def parseDigits : List Char → Option ℕ
  | [] => none
  | l => parseDigitsAux 0 l

/-- Model of Python int(s) on an optional sign followed by decimal digits;
any other shape raises ValueError.  (CPython additionally strips whitespace
and allows underscores between digits; no input in this code base uses
those forms.) -/
def pyInt (s : String) : Except String ℤ :=
  match s.data with
  | [] => .error "ValueError: invalid literal for int"
  | c :: cs =>
    if c = '+' then
      match parseDigits cs with
      | some v => .ok (v : ℤ)
      | none => .error "ValueError: invalid literal for int"
    else if c = '-' then
      match parseDigits cs with
      | some v => .ok (-(v : ℤ))
      | none => .error "ValueError: invalid literal for int"
    else
      match parseDigits (c :: cs) with
      | some v => .ok (v : ℤ)
      | none => .error "ValueError: invalid literal for int"

/-- Catalog entry, mirroring the AonItemJson dataclass of aon_item_loader.py.
It declares no markdown field. -/
structure AonItemJson where
  name : String
  rarity : String
  level : ℤ
  url : String
  category : String
  id : String := ""
  price_raw : String := ""
  source : List String := []
  trait : List String := []
  item_subcategory : String := ""
deriving DecidableEq

/-- Output record, mirroring the ItemOutputData dataclass of
search_service.py. -/
structure ItemOutputData where
  name : String
  rarity : String
  level : ℤ
  price_raw : String
  url : String := ""
  markdown : Option String := none
deriving DecidableEq

/-- Mirrors the ItemTypeData dataclass. -/
structure ItemTypeData where
  potency_name : String
  strength_name : String
  amount : ℤ
deriving DecidableEq

/-- Mirrors the LevelRequest dataclass: the level-to-weight map, in
insertion order. -/
structure LevelRequest where
  weights : List (ℤ × ℚ) := []

/-- Mirrors the TraitRequest dataclass. -/
structure TraitRequest where
  required_traits : List String := []
  exclude_traits : List String := []
  categories : List String := ["equipment"]

/-- Mirrors the RarityRequest dataclass. -/
structure RarityRequest where
  common_number : ℤ
  uncommon_number : ℤ
  rare_number : ℤ
  unique_number : ℤ

/-- Mirrors the EquipmentSearchRequest dataclass. -/
structure EquipmentSearchRequest where
  rarity_request : RarityRequest
  traits : TraitRequest
  level_request : LevelRequest

/-- Mirrors the ItemWithRunesSearchRequest dataclass. -/
structure ItemWithRunesSearchRequest where
  level_request : LevelRequest
  weapons : ℤ
  armor : ℤ

/-- Mirrors the GeneralSearchRequest dataclass. -/
structure GeneralSearchRequest where
  equipment_search_request : Option EquipmentSearchRequest
  item_with_runes_search_request : Option ItemWithRunesSearchRequest

/-- Mirrors the private dataclass holding a base item and its drawn runes
(search_service.py line 68).  The property-rune list never holds the none
sentinel: the comprehension at lines 280-286 filters it out. -/
structure ItemWithRunes where
  item : AonItemJson
  potency : Option AonItemJson
  strength : Option AonItemJson
  item_type_data : ItemTypeData
  property_runes : List AonItemJson

/-- Mirrors the RunesInfo dataclass.  The property-rune buckets carry
Option values because the code appends the Python None sentinel to the
level-0 bucket (line 239); the potency and strength buckets only ever hold
real items. -/
structure RunesInfo where
  item_potency_level_to_item : List (ℤ × List AonItemJson)
  item_strength_level_to_item : List (ℤ × List AonItemJson)
  item_property_runes_level_to_items : List (ℤ × List (Option AonItemJson))
  items : List AonItemJson
  item_type_data : ItemTypeData

/-- Mirrors the module-level helper first(flter, iterable): next() over a
filtered generator, raising StopIteration when nothing matches. -/
def first {α : Type} (flter : α → Bool) (iterable : List α) : Except String α :=
  match iterable.find? flter with
  | some x => .ok x
  | none => .error "StopIteration"

/-- Mirrors _get_item_potency_by_name: last space-separated token, sliced
[1:3] (for a canonical potency rune name this is the +N part). -/
def get_item_potency_by_name (name : String) : String :=
  pySlice ((pySplit " " name).getLastD "") 1 3

/-- Mirrors _get_item_strength_by_name. -/
def get_item_strength_by_name (name : String) (postfix_label : String) : String :=
  if pyInStr "Greater" name then "Greater " ++ postfix_label
  else if pyInStr "Major" name then "Major " ++ postfix_label
  else postfix_label

/-- Mirrors _any_from_list_is_in_list: any(item in list1 for item in list2). -/
def any_from_list_is_in_list (list1 list2 : List String) : Bool :=
  list2.any (fun item => list1.contains item)

/-- Mirrors _get_cost_in_cp: empty price is 0; otherwise the price splits on
", " into denomination fields, each field splits on " " into an amount
(commas removed, parsed by int()) and a unit looked up in the cp/sp/gp
mapping; the copper values are summed.  A malformed field raises (ValueError
from int(), IndexError from the missing unit, or KeyError from the mapping),
in that evaluation order. -/
def get_cost_in_cp (price : String) : Except String ℤ :=
  if price = "" then .ok 0
  else do
    let price_split := pySplit ", " price
    let vals ← price_split.mapM (fun seg => do
      let words := pySplit " " seg
      let amount ← pyInt (removeCommas (words.getD 0 ""))
      let unit ← match words.get? 1 with
        | some u => Except.ok u
        | none => Except.error "IndexError: list index out of range"
      let mult ← if unit = "cp" then Except.ok (1 : ℤ)
        else if unit = "sp" then Except.ok (10 : ℤ)
        else if unit = "gp" then Except.ok (100 : ℤ)
        else Except.error "KeyError"
      Except.ok (amount * mult))
    .ok vals.sum

/-- Mirrors the rendering half of get_gp_cost (lines 83-91): the copper
total is decomposed as gp = int(cost / 100), sp = int((cost % 100) / 10),
cp = cost % 10, and printed with zero sp/cp segments omitted and the gp
segment always present.  int(x / y) on integers truncates toward zero and
the Python % has the sign of the positive divisor, hence tdiv and emod. -/
def render_gp_sp_cp (cost : ℤ) : String :=
  let gp_cost := Int.tdiv cost 100
  let sp_cost := Int.tdiv (Int.emod cost 100) 10
  let cp_cost := Int.emod cost 10
  let s1 := pyStr gp_cost ++ " gp"
  let s2 := if sp_cost > 0 then s1 ++ ", " ++ pyStr sp_cost ++ " sp" else s1
  if cp_cost > 0 then s2 ++ ", " ++ pyStr cp_cost ++ " cp" else s2

/-- Python max() over a non-empty list of integers (the code only applies it
to lists containing at least the base item; the empty case, where Python
would raise, is given the irrelevant value 0). -/
def maxOfList : List ℤ → ℤ
  | [] => 0
  | x :: xs => xs.foldl max x

/-- Mirrors __get_all_as_list: base item, optional potency and strength
runes, then the property runes, with absent entries dropped. -/
def ItemWithRunes.get_all_as_list (s : ItemWithRunes) : List AonItemJson :=
  ([some s.item, s.potency, s.strength] ++ s.property_runes.map some).filterMap id

/-- Mirrors get_gp_cost: per-part copper costs (any parse failure raises),
summed and re-rendered. -/
def ItemWithRunes.get_gp_cost (s : ItemWithRunes) : Except String String := do
  let costs ← s.get_all_as_list.mapM (fun it => get_cost_in_cp it.price_raw)
  .ok (render_gp_sp_cp costs.sum)

/-- Mirrors get_level: max of the levels of the present parts. -/
def ItemWithRunes.get_level (s : ItemWithRunes) : ℤ :=
  maxOfList (s.get_all_as_list.map (fun it => it.level))

/-- Mirrors get_potency_modifier_str. -/
def ItemWithRunes.get_potency_modifier_str (s : ItemWithRunes) : String :=
  match s.potency with
  | some p => get_item_potency_by_name p.name ++ " "
  | none => ""

/-- Mirrors get_strength_modifier_str. -/
def ItemWithRunes.get_strength_modifier_str (s : ItemWithRunes) : String :=
  match s.strength with
  | some st => get_item_strength_by_name st.name s.item_type_data.strength_name ++ " "
  | none => ""

/-- Mirrors get_property_runes_str. -/
def ItemWithRunes.get_property_runes_str (s : ItemWithRunes) : String :=
  let properties_str := pyJoin " " (s.property_runes.map (fun it => it.name))
  if properties_str ≠ "" then properties_str ++ " " else ""

/-- Mirrors get_name. -/
def ItemWithRunes.get_name (s : ItemWithRunes) : String :=
  s.get_potency_modifier_str ++ s.get_strength_modifier_str ++
    s.get_property_runes_str ++ s.item.name

/-- Mirrors _get_random_item (lines 304-320), generic in the bucket element
exactly as the untyped Python is: the weight map is restricted to levels
that are keys of the bucket map; an empty restriction yields None; otherwise
random.choices picks a level by weight and random.choice picks uniformly in
that bucket, an empty bucket yielding None. -/
def get_random_item {α : Type} (items_by_level : List (ℤ × List α))
    (level_request : LevelRequest) (g : Rng) : Except String (Option α × Rng) :=
  let level_to_weight := level_request.weights.filter
    (fun p => (alookup p.1 items_by_level).isSome)
  if level_to_weight.length = 0 ∨ items_by_level.length = 0 then .ok (none, g)
  else do
    let levels_to_choose := level_to_weight.map Prod.fst
    let ws := level_to_weight.map Prod.snd
    let (level, g) ← pyChoices levels_to_choose ws g
    let items_to_choose := (alookup level items_by_level).getD []
    if items_to_choose.length > 0 then
      let (it, g) ← pyChoice items_to_choose g
      .ok (some it, g)
    else .ok (none, g)

/-- Mirrors line 277: the potency rank is int() of the +N token of the drawn
potency rune's name, or 0 when none was drawn. -/
def potency_rank_of : Option AonItemJson → Except String ℤ
  | none => .ok 0
  | some it => pyInt (get_item_potency_by_name it.name)

/-- Mirrors the property-rune list comprehension (lines 280-286): the given
number of independent draws from the property-rune buckets, keeping the
non-None outcomes in draw order.  Drawing the None sentinel from the level-0
bucket and drawing nothing at all are both Python None and both dropped. -/
def draw_property_runes (pm : List (ℤ × List (Option AonItemJson)))
    (lr : LevelRequest) : ℕ → Rng → Except String (List AonItemJson × Rng)
  | 0, g => .ok ([], g)
  | k + 1, g => do
    let (r, g) ← get_random_item pm lr g
    let (rest, g') ← draw_property_runes pm lr k g
    match r.join with
    | some rune => .ok (rune :: rest, g')
    | none => .ok (rest, g')

/-- The part-drawing phase of _get_random_item_with_runes (lines 276-294):
potency draw, rank extraction, strength draw, randrange(0, rank + 1) property
draws, uniform base-item choice. -/
def get_random_item_with_runes_parts (runes_info : RunesInfo)
    (search_request : ItemWithRunesSearchRequest) (g : Rng) :
    Except String (ItemWithRunes × Rng) := do
  let (item_potency_rune, g) ←
    get_random_item runes_info.item_potency_level_to_item search_request.level_request g
  let potency_rank ← potency_rank_of item_potency_rune
  let (item_strength_rune, g) ←
    get_random_item runes_info.item_strength_level_to_item search_request.level_request g
  let (k, g) ← pyRandrange 0 (potency_rank + 1) g
  let (props, g) ←
    draw_property_runes runes_info.item_property_runes_level_to_items
      search_request.level_request k.toNat g
  let (base, g) ← pyChoice runes_info.items g
  .ok (⟨base, item_potency_rune, item_strength_rune, runes_info.item_type_data, props⟩, g)

/-- Mirrors _get_random_item_with_runes (lines 275-301): the drawn parts
packaged as an output record with the derived name, fixed rarity unique,
derived level and rendered price. -/
def get_random_item_with_runes (runes_info : RunesInfo)
    (search_request : ItemWithRunesSearchRequest) (g : Rng) :
    Except String (ItemOutputData × Rng) := do
  let (weapon_with_runes, g) ← get_random_item_with_runes_parts runes_info search_request g
  let price ← weapon_with_runes.get_gp_cost
  .ok ({ name := weapon_with_runes.get_name, rarity := "unique",
         level := weapon_with_runes.get_level, price_raw := price }, g)

/-- Sequencing helper for list comprehensions of the form
[draw() for _ in range(n)]: n draws in order, threading the oracle. -/
def repeatDraws {β : Type} (f : Rng → Except String (β × Rng)) :
    ℕ → Rng → Except String (List β × Rng)
  | 0, g => .ok ([], g)
  | n + 1, g => do
    let (x, g) ← f g
    let (xs, g') ← repeatDraws f n g
    .ok (x :: xs, g')

/-- Mirrors AonItemLoader.load_items_by_categories: concatenation of the
per-category loads.  The loader itself (file or network backed) is the
external collaborator, modelled as a function from category to item list. -/
def load_items_by_categories (loader : String → List AonItemJson)
    (categories : List String) : List AonItemJson :=
  (categories.map loader).flatten

/-- Mirrors AonSearchService._get_runes_info (lines 212-250): looks up the
three canonical potency runes and the three canonical strength runes by name
in the equipment catalog (first raises StopIteration if one is absent),
builds singleton level buckets over an initial empty level-0 bucket, and
groups the property runes by level over an initial level-0 bucket holding
the None sentinel. -/
def get_runes_info (loader : String → List AonItemJson)
    (item_type_data : ItemTypeData) : Except String RunesInfo := do
  let equipment := loader "equipment"
  let weapons := loader (pyLower item_type_data.potency_name)
  let potency_rune_names := [1, 2, 3].map
    (fun i => item_type_data.potency_name ++ " Potency (+" ++ natToString i ++ ")")
  let strength_rune_names := [item_type_data.strength_name,
    item_type_data.strength_name ++ " (Greater)",
    item_type_data.strength_name ++ " (Major)"]
  let item_potency ← potency_rune_names.mapM
    (fun nm => first (fun it => it.name == nm) equipment)
  let item_strength ← strength_rune_names.mapM
    (fun nm => first (fun it => it.name == nm) equipment)
  let item_potency_level_to_item :=
    item_potency.foldl (fun d it => dictSet d it.level [it]) [((0 : ℤ), [])]
  let item_striking_level_to_item :=
    item_strength.foldl (fun d it => dictSet d it.level [it]) [((0 : ℤ), [])]
  let item_property_runes := equipment.filter
    (fun it => it.item_subcategory == item_type_data.potency_name ++ " Property Runes")
  let item_property_runes_level_to_items :=
    item_property_runes.foldl (fun d it => dictAppendAt d it.level (some it))
      [((0 : ℤ), [(none : Option AonItemJson)])]
  .ok ⟨item_potency_level_to_item, item_striking_level_to_item,
       item_property_runes_level_to_items, weapons, item_type_data⟩

/-- Mirrors AonSearchService._generate_items_with_runes (lines 252-258):
one runes-info setup, then amount independent composite draws. -/
def generate_items_with_runes (loader : String → List AonItemJson)
    (item_type_data : ItemTypeData) (search_request : ItemWithRunesSearchRequest)
    (g : Rng) : Except String (List ItemOutputData × Rng) := do
  let runes_info ← get_runes_info loader item_type_data
  repeatDraws (get_random_item_with_runes runes_info search_request)
    item_type_data.amount.toNat g

/-- Mirrors _generate_armor_runes_based_on_request. -/
def generate_armor_runes_based_on_request (loader : String → List AonItemJson)
    (search_request : ItemWithRunesSearchRequest) (g : Rng) :
    Except String (List ItemOutputData × Rng) :=
  generate_items_with_runes loader ⟨"Armor", "Resilient", search_request.armor⟩
    search_request g

/-- Mirrors _generate_weapon_runes_based_on_request. -/
def generate_weapon_runes_based_on_request (loader : String → List AonItemJson)
    (search_request : ItemWithRunesSearchRequest) (g : Rng) :
    Except String (List ItemOutputData × Rng) :=
  generate_items_with_runes loader ⟨"Weapon", "Striking", search_request.weapons⟩
    search_request g

/-- One iteration of the bucket-building loop of
_choose_items_by_level_and_rarity (lines 329-333): the item is appended to
the level bucket of the inner dict of its rarity (both defaultdicts, so
absent entries read as empty). -/
def ibrl_step (d : List (String × List (ℤ × List AonItemJson)))
    (it : AonItemJson) : List (String × List (ℤ × List AonItemJson)) :=
  dictSet d it.rarity (dictAppendAt ((alookup it.rarity d).getD []) it.level it)

/-- The bucket-building loop of _choose_items_by_level_and_rarity
(lines 327-333): nested defaultdicts keyed by rarity then level. -/
def items_by_rarity_by_level (items : List AonItemJson) :
    List (String × List (ℤ × List AonItemJson)) :=
  items.foldl ibrl_step []

/-- Mirrors _choose_items_by_level_and_rarity (lines 323-348): the requested
number of independent draws per rarity tier, concatenated in the fixed order
common, uncommon, rare, unique.  A negative requested count behaves like
range(n): zero draws. -/
def choose_items_by_level_and_rarity (items : List AonItemJson)
    (search_request : EquipmentSearchRequest) (g : Rng) :
    Except String (List (Option AonItemJson) × Rng) := do
  let d := items_by_rarity_by_level items
  let draw := fun (rarity : String) (number : ℤ) (g : Rng) =>
    repeatDraws (get_random_item ((alookup rarity d).getD []) search_request.level_request)
      number.toNat g
  let (cs, g) ← draw "common" search_request.rarity_request.common_number g
  let (us, g) ← draw "uncommon" search_request.rarity_request.uncommon_number g
  let (rs, g) ← draw "rare" search_request.rarity_request.rare_number g
  let (qs, g) ← draw "unique" search_request.rarity_request.unique_number g
  .ok (cs ++ us ++ rs ++ qs, g)

/-- Mirrors _to_item_output_data (lines 126-134).  The constructor reads
item.markdown, but the AonItemJson dataclass of aon_item_loader.py declares
no markdown field, so the attribute access raises AttributeError for every
item; the function can never return normally. -/
def to_item_output_data (_item : AonItemJson) : Except String ItemOutputData :=
  .error "AttributeError: AonItemJson has no attribute markdown"

/-- Mirrors the AonSearchService dataclass: the loader collaborator and the
allow-listed sources. -/
structure AonSearchService where
  aon_item_loader : String → List AonItemJson
  sources : List String

/-- The source filter of _get_random_equipment (line 199). -/
def passes_source_filter (svc : AonSearchService) (it : AonItemJson) : Bool :=
  any_from_list_is_in_list it.source svc.sources

/-- The required-traits filter (lines 200-202). -/
def passes_required_traits (traits : TraitRequest) (it : AonItemJson) : Bool :=
  traits.required_traits.length == 0 ||
    any_from_list_is_in_list it.trait traits.required_traits

/-- The excluded-traits filter (lines 203-204). -/
def passes_exclude_traits (traits : TraitRequest) (it : AonItemJson) : Bool :=
  ! any_from_list_is_in_list it.trait traits.exclude_traits

/-- The in-place url mutation of the filtered items (lines 206-207). -/
def mutate_url (it : AonItemJson) : AonItemJson :=
  { it with url := "https://2e.aonprd.com" ++ it.url }

/-- Mirrors AonSearchService._get_random_equipment (lines 197-210).  The
items that pass the source and trait filters are mutated in place: their url
field is rewritten with the site domain before sampling, so the loaded
catalog objects themselves change.  The second component is the state of the
loaded pool after the call (filtered items mutated, the rest untouched);
the first is the sampling result, which converts every non-None draw with
to_item_output_data. -/
def get_random_equipment (svc : AonSearchService)
    (search_request : EquipmentSearchRequest) (g : Rng) :
    Except String (List ItemOutputData × Rng) × List AonItemJson :=
  let equipment := load_items_by_categories svc.aon_item_loader
    search_request.traits.categories
  let items1 := equipment.filter (passes_source_filter svc)
  let items2 := items1.filter (passes_required_traits search_request.traits)
  let items3 := items2.filter (passes_exclude_traits search_request.traits)
  let items := items3.map mutate_url
  let pool_after := equipment.map (fun it =>
    if passes_source_filter svc it && passes_required_traits search_request.traits it &&
        passes_exclude_traits search_request.traits it
    then mutate_url it else it)
  (do
    let (chosen, g) ← choose_items_by_level_and_rarity items search_request g
    let outs ← (chosen.filterMap id).mapM to_item_output_data
    .ok (outs, g),
   pool_after)

/-- Mirrors _parse_aon_price (lines 147-162) up to its regex extraction: a
non-empty price_raw is returned as is; otherwise the price is extracted from
the markdown by the external re library, abstracted here as the collaborator
rx applied to the markdown text and the item name. -/
def parse_aon_price (rx : String → String → String) (item : ItemOutputData) : String :=
  if item.price_raw ≠ "" then item.price_raw
  else rx (item.markdown.getD "") item.name

/-- Mirrors _fix_aon_price (lines 165-171): items carrying markdown get
their price_raw replaced by the parsed price, with a leading Price token
stripped; items without markdown are untouched. -/
def fix_aon_price (rx : String → String → String) (items : List ItemOutputData) :
    List ItemOutputData :=
  items.map (fun item =>
    match item.markdown with
    | none => item
    | some _ =>
      let price := parse_aon_price rx item
      let price := if pyInStr "Price" price
        then pyJoin " " ((pySplit " " price).drop 1) else price
      { item with price_raw := price })

/-- The items-with-runes half of get_random_items_by_request (lines
188-192): weapon composites then armor composites. -/
def items_with_runes_results (svc : AonSearchService) (gsr : GeneralSearchRequest)
    (g : Rng) : Except String (List ItemOutputData × Rng) :=
  match gsr.item_with_runes_search_request with
  | some rr => do
      let (w, g) ← generate_weapon_runes_based_on_request svc.aon_item_loader rr g
      let (a, g) ← generate_armor_runes_based_on_request svc.aon_item_loader rr g
      .ok (w ++ a, g)
  | none => .ok ([], g)

/-- Mirrors AonSearchService.get_random_items_by_request (lines 183-195):
equipment results, then weapon and armor composites, then the price
back-fill.  The second component is the state of the equipment-branch loaded
catalog pool after the call (empty when no equipment request is present, in
which case nothing is mutated). -/
def get_random_items_by_request (svc : AonSearchService)
    (rx : String → String → String) (gsr : GeneralSearchRequest) (g : Rng) :
    Except String (List ItemOutputData × Rng) × List AonItemJson :=
  match gsr.equipment_search_request with
  | some esr =>
    let (eqRes, pool_after) := get_random_equipment svc esr g
    ((do
        let (r1, g) ← eqRes
        let (r2, g) ← items_with_runes_results svc gsr g
        .ok (fix_aon_price rx (r1 ++ r2), g)), pool_after)
  | none =>
    ((do
        let (r2, g) ← items_with_runes_results svc gsr g
        .ok (fix_aon_price rx r2, g)), [])

/-- The loop body of _generate_shop_item_weights of shop_generator.py
(lines 215-221): levels at or below the shop level get weight
exp(-decay * (shop_level - level)), level shop_level + 1 gets 0.2, level
shop_level + 2 gets 0.05, and other levels are not inserted.  Floats are
modelled over the reals, math.exp as Real.exp. -/
noncomputable def gswStep (shop_level : ℤ) (decay : ℝ) (weights : List (ℤ × ℝ))
    (level : ℕ) : List (ℤ × ℝ) :=
  if (level : ℤ) ≤ shop_level then
    dictSet weights (level : ℤ)
      (Real.exp ((-1) * decay * ((shop_level - (level : ℤ) : ℤ) : ℝ)))
  else if (level : ℤ) = shop_level + 1 then dictSet weights (level : ℤ) (0.2 : ℝ)
  else if (level : ℤ) = shop_level + 2 then dictSet weights (level : ℤ) (0.05 : ℝ)
  else weights

/-- Mirrors _generate_shop_item_weights of shop_generator.py (lines
212-223): the step above folded over the levels 0..max_level of
range(max_level + 1), starting from the empty dict.  The callers in
create_search_request use the default max_level of 30. -/
noncomputable def generate_shop_item_weights (shop_level : ℤ) (max_level : ℕ)
    (decay : ℝ) : List (ℤ × ℝ) :=
  (List.range (max_level + 1)).foldl (gswStep shop_level decay) []

/-- Characterisation target for one entry of the shop weight map: levels in
[0, bound] at or below the shop level carry the exponential weight, the next
two levels the fixed weights, and nothing else is present. -/
noncomputable def gswSpec (shop_level : ℤ) (decay : ℝ) (bound L : ℤ) : Option ℝ :=
  if 0 ≤ L ∧ L ≤ bound ∧ L ≤ shop_level then
    some (Real.exp ((-1) * decay * ((shop_level - L : ℤ) : ℝ)))
  else if 0 ≤ L ∧ L ≤ bound ∧ L = shop_level + 1 then some (0.2 : ℝ)
  else if 0 ≤ L ∧ L ≤ bound ∧ L = shop_level + 2 then some (0.05 : ℝ)
  else none

/-- Is an Except value a normal return (no exception)? -/
def exceptIsOk {α : Type} : Except String α → Bool
  | .ok _ => true
  | .error _ => false

/-- The level that the weighted draw of _get_random_item selects for a given
oracle: the entry of the restricted weight map indexed by the first oracle
value, taken modulo the number of restricted entries. -/
def selected_level {α : Type} (items_by_level : List (ℤ × List α))
    (level_request : LevelRequest) (g : Rng) : ℤ :=
  let restr := level_request.weights.filter (fun p => (alookup p.1 items_by_level).isSome)
  (restr.map Prod.fst).getD (g.stream g.pos % restr.length) 0

/-- The pair that _get_random_item returns when every weight is positive:
None on an empty restriction, otherwise the oracle-selected element of the
selected level's bucket (None when that bucket is empty). -/
def gri_result {α : Type} (items_by_level : List (ℤ × List α))
    (level_request : LevelRequest) (g : Rng) : Option α × Rng :=
  let restr := level_request.weights.filter (fun p => (alookup p.1 items_by_level).isSome)
  if restr.length = 0 ∨ items_by_level.length = 0 then (none, g)
  else
    let bucket := (alookup (selected_level items_by_level level_request g) items_by_level).getD []
    if 0 < bucket.length then
      (bucket.get? (g.stream (g.pos + 1) % bucket.length), ⟨g.stream, g.pos + 2⟩)
    else (none, ⟨g.stream, g.pos + 1⟩)

/-- One output slot of the rarity-bucketed sampler is a valid draw from a
tier: either the None placeholder or an item of the pool carrying that
rarity. -/
def tier_draw_ok (items : List AonItemJson) (rarity : String)
    (x : Option AonItemJson) : Prop :=
  x = none ∨ ∃ it, x = some it ∧ it ∈ items ∧ it.rarity = rarity

/-- The composite level as the claim states it: the maximum of the base
item level, the potency rune level if present, the strength rune level if
present, and the property rune levels, absent parts contributing 0. -/
def claimed_composite_level (s : ItemWithRunes) : ℤ :=
  max (max (max s.item.level ((s.potency.map (fun it => it.level)).getD 0))
        ((s.strength.map (fun it => it.level)).getD 0))
    (s.property_runes.foldr (fun it m => max it.level m) 0)

/-- The six canonical rune names whose catalog entries _get_runes_info
looks up: the three potency names and the three strength names. -/
def canonical_rune_names (item_type_data : ItemTypeData) : List String :=
  ([1, 2, 3].map (fun i =>
    item_type_data.potency_name ++ " Potency (+" ++ natToString i ++ ")")) ++
  [item_type_data.strength_name, item_type_data.strength_name ++ " (Greater)",
   item_type_data.strength_name ++ " (Major)"]

/-- No adjacent occurrence of the two separator characters in a character
run. -/
def noPairB (c1 c2 : Char) : List Char → Bool
  | [] => true
  | [_] => true
  | c :: c' :: rest => !(c = c1 && c' = c2) && noPairB c1 c2 (c' :: rest)

/-- Well-formed amount text: decimal digits with thousands-separator commas,
each comma followed by a digit, ending in a digit. -/
def amountOk : List Char → Bool
  | [] => false
  | [c] => c.isDigit
  | c :: c' :: rest => (c.isDigit || (c = ',' && c'.isDigit)) && amountOk (c' :: rest)

/-- The copper multiplier of a denomination unit. -/
def unit_mult_val (u : List Char) : ℤ :=
  if u = "cp".data then 1 else if u = "sp".data then 10 else 100

/-- The numeric value of an amount text, commas removed. -/
def amount_val (a : List Char) : ℤ :=
  (((a.filter (fun c => c ≠ ',')).foldl (fun acc c => acc * 10 + (c.toNat - 48)) 0 : ℕ) : ℤ)

/-- The price string assembled from amount and unit segments, joined by
comma-space. -/
def joinSegs : List (List Char × List Char) → List Char
  | [] => []
  | [(a, u)] => a ++ ' ' :: u
  | (a, u) :: r :: rs => (a ++ ' ' :: u) ++ ',' :: ' ' :: joinSegs (r :: rs)

/-- The claim-side canonical segment decomposition of a non-negative copper
total: gp always present, sp and cp segments omitted when zero. -/
def segsOf (n : ℕ) : List (List Char × List Char) :=
  ((natToString (n / 100)).data, "gp".data) ::
    ((if (n % 100) / 10 > 0 then [((natToString ((n % 100) / 10)).data, "sp".data)] else []) ++
     (if n % 10 > 0 then [((natToString (n % 10)).data, "cp".data)] else []))

/-!
## Lemmas and claim theorems
-/
theorem dictSet_alookup {κ α : Type} [DecidableEq κ] (d : List (κ × α)) (k : κ) (v : α) (L : κ) :
    alookup L (dictSet d k v) = if L = k then some v else alookup L d := by
  induction d with
  | nil => by_cases h : L = k <;> simp [dictSet, alookup, h]
  | cons p rest ih =>
    obtain ⟨k', v'⟩ := p
    by_cases hk : k' = k
    · subst hk
      by_cases h : L = k' <;> simp [dictSet, alookup, h]
    · by_cases h : L = k'
      · subst h
        simp [dictSet, hk, alookup]
      · simp [dictSet, hk, alookup, h, ih]

theorem dictAppendAt_alookup {κ α : Type} [DecidableEq κ] (d : List (κ × List α)) (k : κ) (v : α) (L : κ) :
    alookup L (dictAppendAt d k v) =
      if L = k then some ((alookup k d).getD [] ++ [v]) else alookup L d := by
  induction d with
  | nil => by_cases h : L = k <;> simp [dictAppendAt, alookup, h]
  | cons p rest ih =>
    obtain ⟨k', l⟩ := p
    by_cases hk : k' = k
    · subst hk
      by_cases h : L = k' <;> simp [dictAppendAt, alookup, h]
    · by_cases h : L = k'
      · subst h
        simp [dictAppendAt, hk, alookup]
      · have hk' : ¬ (k = k') := fun h' => hk h'.symm
        simp [dictAppendAt, hk, alookup, h, ih, hk']

theorem gswStep_alookup (shop_level : ℤ) (decay : ℝ) (w : List (ℤ × ℝ)) (lvl : ℕ)
    (L : ℤ) (hw : alookup (lvl : ℤ) w = none) :
    alookup L (gswStep shop_level decay w lvl) =
      if L = (lvl : ℤ) then gswSpec shop_level decay (lvl : ℤ) L else alookup L w := by
  by_cases hL : L = (lvl : ℤ)
  · subst hL
    rw [if_pos rfl]
    unfold gswStep gswSpec
    by_cases h1 : ((lvl : ℤ) : ℤ) ≤ shop_level
    · rw [if_pos h1, dictSet_alookup, if_pos rfl, if_pos (by omega)]
    · by_cases h2 : ((lvl : ℤ) : ℤ) = shop_level + 1
      · rw [if_neg h1, if_pos h2, dictSet_alookup, if_pos rfl, if_neg (by omega),
          if_pos (by omega)]
      · by_cases h3 : ((lvl : ℤ) : ℤ) = shop_level + 2
        · rw [if_neg h1, if_neg h2, if_pos h3, dictSet_alookup, if_pos rfl,
            if_neg (by omega), if_neg (by omega), if_pos (by omega)]
        · rw [if_neg h1, if_neg h2, if_neg h3, hw, if_neg (by omega), if_neg (by omega),
            if_neg (by omega)]
  · rw [if_neg hL]
    unfold gswStep
    by_cases h1 : (lvl : ℤ) ≤ shop_level
    · rw [if_pos h1, dictSet_alookup, if_neg hL]
    · by_cases h2 : (lvl : ℤ) = shop_level + 1
      · rw [if_neg h1, if_pos h2, dictSet_alookup, if_neg hL]
      · by_cases h3 : (lvl : ℤ) = shop_level + 2
        · rw [if_neg h1, if_neg h2, if_pos h3, dictSet_alookup, if_neg hL]
        · rw [if_neg h1, if_neg h2, if_neg h3]

theorem gswSpec_bound_succ (shop_level : ℤ) (decay : ℝ) (n : ℕ) (L : ℤ)
    (hL : L ≠ ((n + 1 : ℕ) : ℤ)) :
    gswSpec shop_level decay (n : ℤ) L = gswSpec shop_level decay ((n + 1 : ℕ) : ℤ) L := by
  unfold gswSpec
  push_cast at hL ⊢
  split_ifs <;> first | rfl | omega

theorem gsw_alookup (shop_level : ℤ) (decay : ℝ) (max_level : ℕ) (L : ℤ) :
    alookup L (generate_shop_item_weights shop_level max_level decay) =
      gswSpec shop_level decay (max_level : ℤ) L := by
  induction max_level generalizing L with
  | zero =>
    have h0 : generate_shop_item_weights shop_level 0 decay =
        gswStep shop_level decay [] 0 := by
      simp [generate_shop_item_weights, List.range_succ]
    rw [h0, gswStep_alookup shop_level decay [] 0 L (by rfl)]
    by_cases hL : L = ((0 : ℕ) : ℤ)
    · rw [if_pos hL, hL]
    · rw [if_neg hL]
      unfold gswSpec
      simp only [alookup]
      push_cast at hL ⊢
      split_ifs <;> first | rfl | omega
  | succ n ih =>
    have hstep : generate_shop_item_weights shop_level (n + 1) decay =
        gswStep shop_level decay (generate_shop_item_weights shop_level n decay) (n + 1) := by
      unfold generate_shop_item_weights
      rw [List.range_succ, List.foldl_append, List.foldl_cons, List.foldl_nil]
    have hfresh : alookup ((n + 1 : ℕ) : ℤ)
        (generate_shop_item_weights shop_level n decay) = none := by
      rw [ih]
      unfold gswSpec
      rw [if_neg (by push_cast; omega), if_neg (by push_cast; omega),
          if_neg (by push_cast; omega)]
    rw [hstep, gswStep_alookup shop_level decay _ (n + 1) L hfresh]
    by_cases hL : L = ((n + 1 : ℕ) : ℤ)
    · rw [if_pos hL, hL]
    · rw [if_neg hL, ih, gswSpec_bound_succ shop_level decay n L hL]

/-- C1 counterexample: the claim quantifies over every integer shop_level
and asserts that the map has weight exp(-decay (shop_level - L)) at every
level L at or below shop_level (in particular weight 1.0 at shop_level
itself) and the fixed weights 0.2 and 0.05 at the two levels above.  At
shop_level = 31 with decay = 1 (and the default max_level = 30 that every
caller uses) the loop over range(31) never reaches level 31, so the map has
no entry at the shop level itself, nor at shop_level + 1 or shop_level + 2:
the claimed entries are absent. -/
theorem c1_weights_counterexample :
    alookup (31 : ℤ) (generate_shop_item_weights 31 30 1) = none ∧
    alookup (32 : ℤ) (generate_shop_item_weights 31 30 1) = none ∧
    alookup (33 : ℤ) (generate_shop_item_weights 31 30 1) = none := by
  refine ⟨?_, ?_, ?_⟩ <;> · rw [gsw_alookup]; norm_num [gswSpec]

/-- C1 (amended): for every shop_level with 0 <= shop_level and
shop_level + 2 <= max_level = 30 (the default every caller uses) and every
decay > 0, the weight map assigns exp(-decay (shop_level - L)) to every
level 0 <= L <= shop_level, exactly 1.0 at the shop level itself, 0.2 at
shop_level + 1 and 0.05 at shop_level + 2, and contains no key below 0 or
above shop_level + 2. -/
theorem c1_weights_amended (shop_level : ℤ) (decay : ℝ) (_hd : 0 < decay)
    (h0 : 0 ≤ shop_level) (h2 : shop_level + 2 ≤ 30) :
    (∀ L : ℤ, 0 ≤ L → L ≤ shop_level →
        alookup L (generate_shop_item_weights shop_level 30 decay) =
          some (Real.exp (-(decay * ((shop_level : ℝ) - (L : ℝ)))))) ∧
    alookup shop_level (generate_shop_item_weights shop_level 30 decay) = some 1 ∧
    alookup (shop_level + 1) (generate_shop_item_weights shop_level 30 decay) =
      some (0.2 : ℝ) ∧
    alookup (shop_level + 2) (generate_shop_item_weights shop_level 30 decay) =
      some (0.05 : ℝ) ∧
    (∀ L : ℤ, L < 0 ∨ shop_level + 2 < L →
        alookup L (generate_shop_item_weights shop_level 30 decay) = none) := by
  refine ⟨?_, ?_, ?_, ?_, ?_⟩
  · intro L hL0 hLs
    rw [gsw_alookup]
    unfold gswSpec
    have hc : 0 ≤ L ∧ L ≤ ((30 : ℕ) : ℤ) ∧ L ≤ shop_level := by push_cast; omega
    rw [if_pos hc]
    congr 1
    push_cast
    ring_nf
  · rw [gsw_alookup]
    unfold gswSpec
    have hc : 0 ≤ shop_level ∧ shop_level ≤ ((30 : ℕ) : ℤ) ∧ shop_level ≤ shop_level := by
      push_cast; omega
    rw [if_pos hc]
    simp [Real.exp_zero]
  · rw [gsw_alookup]
    unfold gswSpec
    have hc1 : ¬ (0 ≤ shop_level + 1 ∧ shop_level + 1 ≤ ((30 : ℕ) : ℤ) ∧
        shop_level + 1 ≤ shop_level) := by push_cast; omega
    have hc2 : 0 ≤ shop_level + 1 ∧ shop_level + 1 ≤ ((30 : ℕ) : ℤ) ∧
        shop_level + 1 = shop_level + 1 := by push_cast; omega
    rw [if_neg hc1, if_pos hc2]
  · rw [gsw_alookup]
    unfold gswSpec
    have hc1 : ¬ (0 ≤ shop_level + 2 ∧ shop_level + 2 ≤ ((30 : ℕ) : ℤ) ∧
        shop_level + 2 ≤ shop_level) := by push_cast; omega
    have hc2 : ¬ (0 ≤ shop_level + 2 ∧ shop_level + 2 ≤ ((30 : ℕ) : ℤ) ∧
        shop_level + 2 = shop_level + 1) := by push_cast; omega
    have hc3 : 0 ≤ shop_level + 2 ∧ shop_level + 2 ≤ ((30 : ℕ) : ℤ) ∧
        shop_level + 2 = shop_level + 2 := by push_cast; omega
    rw [if_neg hc1, if_neg hc2, if_pos hc3]
  · intro L hL
    rw [gsw_alookup]
    unfold gswSpec
    have hc1 : ¬ (0 ≤ L ∧ L ≤ ((30 : ℕ) : ℤ) ∧ L ≤ shop_level) := by push_cast; omega
    have hc2 : ¬ (0 ≤ L ∧ L ≤ ((30 : ℕ) : ℤ) ∧ L = shop_level + 1) := by push_cast; omega
    have hc3 : ¬ (0 ≤ L ∧ L ≤ ((30 : ℕ) : ℤ) ∧ L = shop_level + 2) := by push_cast; omega
    rw [if_neg hc1, if_neg hc2, if_neg hc3]

/-- C1 witness: the amended statement instantiated at shop_level = 3,
decay = 1, discharging both range hypotheses and the decay positivity. -/
theorem c1_weights_amended_witness :
    (∀ L : ℤ, 0 ≤ L → L ≤ 3 →
        alookup L (generate_shop_item_weights 3 30 1) =
          some (Real.exp (-(1 * ((3 : ℝ) - (L : ℝ)))))) ∧
    alookup 3 (generate_shop_item_weights 3 30 1) = some 1 ∧
    alookup 4 (generate_shop_item_weights 3 30 1) = some (0.2 : ℝ) ∧
    alookup 5 (generate_shop_item_weights 3 30 1) = some (0.05 : ℝ) ∧
    (∀ L : ℤ, L < 0 ∨ 5 < L →
        alookup L (generate_shop_item_weights 3 30 1) = none) :=
  c1_weights_amended 3 1 one_pos (by decide) (by decide)

theorem pyChoices_pos {α : Type} (x : α) (xs : List α) (w : ℚ) (ws : List ℚ)
    (hlen : (x :: xs).length = (w :: ws).length) (hsum : 0 < (w :: ws).sum) (g : Rng) :
    pyChoices (x :: xs) (w :: ws) g =
      .ok ((x :: xs).getD (g.stream g.pos % (x :: xs).length) x, ⟨g.stream, g.pos + 1⟩) := by
  unfold pyChoices
  rw [if_neg (by omega), dif_neg (by simp), if_neg (not_le.mpr hsum)]
  have hlt : g.stream g.pos % (x :: xs).length < (x :: xs).length :=
    Nat.mod_lt _ (by simp)
  rw [List.getD_eq_getElem (x :: xs) x hlt]
  rfl

theorem pyChoice_cons {α : Type} (x : α) (xs : List α) (g : Rng) :
    pyChoice (x :: xs) g =
      .ok ((x :: xs).getD (g.stream g.pos % (x :: xs).length) x, ⟨g.stream, g.pos + 1⟩) := by
  unfold pyChoice
  rw [dif_neg (by simp)]
  have hlt : g.stream g.pos % (x :: xs).length < (x :: xs).length :=
    Nat.mod_lt _ (by simp)
  rw [List.getD_eq_getElem (x :: xs) x hlt]
  rfl

theorem get_random_item_eq {α : Type} (bm : List (ℤ × List α)) (lr : LevelRequest)
    (g : Rng) (hw : ∀ p ∈ lr.weights, 0 < p.2) :
    get_random_item bm lr g = .ok (gri_result bm lr g) := by
  unfold get_random_item gri_result
  by_cases hres : (lr.weights.filter (fun p => (alookup p.1 bm).isSome)).length = 0 ∨
      bm.length = 0
  · rw [if_pos hres, if_pos hres]
  · rw [if_neg hres, if_neg hres]
    push_neg at hres
    obtain ⟨hr0, _⟩ := hres
    rcases hrestr : lr.weights.filter (fun p => (alookup p.1 bm).isSome) with _ | ⟨p, rs⟩
    · rw [hrestr] at hr0
      simp at hr0
    · have hsum : 0 < ((p :: rs).map Prod.snd).sum := by
        apply List.sum_pos
        · intro q hq
          simp only [List.mem_map] at hq
          obtain ⟨q', hq', rfl⟩ := hq
          exact hw q' (List.mem_of_mem_filter (hrestr ▸ hq'))
        · simp
      rw [hrestr]
      simp only [List.map_cons] at hsum ⊢
      rw [pyChoices_pos p.1 (rs.map Prod.fst) p.2 (rs.map Prod.snd) (by simp) hsum g]
      have hsel : (p.1 :: List.map Prod.fst rs).getD
          (g.stream g.pos % (p.1 :: List.map Prod.fst rs).length) p.1 =
          selected_level bm lr g := by
        unfold selected_level
        rw [hrestr]
        simp only [List.map_cons, List.length_cons, List.length_map]
        have hlt : g.stream g.pos % (rs.length + 1) < rs.length + 1 :=
          Nat.mod_lt _ (by omega)
        rw [List.getD_eq_getElem _ p.1 (by simpa using hlt),
            List.getD_eq_getElem _ (0 : ℤ) (by simpa using hlt)]
      simp only [Bind.bind, Except.bind]
      rw [hsel]
      by_cases hbuck : 0 < ((alookup (selected_level bm lr g) bm).getD []).length
      · rw [if_pos (by simpa using hbuck), if_pos hbuck]
        rcases hb : (alookup (selected_level bm lr g) bm).getD [] with _ | ⟨b, bs⟩
        · rw [hb] at hbuck
          simp at hbuck
        · rw [hb] at hbuck
          rw [pyChoice_cons b bs ⟨g.stream, g.pos + 1⟩]
          have hlt : g.stream (g.pos + 1) % (b :: bs).length < (b :: bs).length :=
            Nat.mod_lt _ (by simp)
          rw [List.getD_eq_getElem (b :: bs) b hlt, List.get?_eq_get hlt]
          rfl
      · rw [if_neg (by simpa using hbuck), if_neg hbuck]

theorem gri_result_mem {α : Type} (bm : List (ℤ × List α)) (lr : LevelRequest)
    (g : Rng) (x : α) (hx : (gri_result bm lr g).1 = some x) :
    x ∈ (alookup (selected_level bm lr g) bm).getD [] := by
  unfold gri_result at hx
  by_cases hres : (lr.weights.filter (fun p => (alookup p.1 bm).isSome)).length = 0 ∨
      bm.length = 0
  · rw [if_pos hres] at hx
    simp at hx
  · rw [if_neg hres] at hx
    by_cases hbuck : 0 < ((alookup (selected_level bm lr g) bm).getD []).length
    · rw [if_pos hbuck] at hx
      simp only at hx
      exact List.get?_mem hx
    · rw [if_neg hbuck] at hx
      simp at hx

/-- C10: with a bucket map of proper items and strictly positive weights,
the weighted-draw primitive never raises; it returns None exactly when no
weight-map key is a bucket-map key or the oracle-selected level has an empty
bucket, and every non-None result is an element of the selected bucket.  In
particular a present key with an empty bucket (the level-0 entries that
_get_runes_info installs in the potency and strength maps) makes None a
reachable outcome even though the restricted weight map is non-empty. -/
theorem c10_get_random_item_spec {α : Type} (bm : List (ℤ × List α)) (lr : LevelRequest)
    (g : Rng) (hw : ∀ p ∈ lr.weights, 0 < p.2) :
    ∃ (r : Option α) (g' : Rng),
      get_random_item bm lr g = .ok (r, g') ∧
      (r = none ↔ (∀ p ∈ lr.weights, alookup p.1 bm = none) ∨
        (alookup (selected_level bm lr g) bm).getD [] = []) ∧
      (∀ x, r = some x → x ∈ (alookup (selected_level bm lr g) bm).getD []) := by
  refine ⟨(gri_result bm lr g).1, (gri_result bm lr g).2, ?_, ?_,
    fun x hx => gri_result_mem bm lr g x hx⟩
  · rw [get_random_item_eq bm lr g hw]
  · unfold gri_result
    by_cases hres : (lr.weights.filter (fun p => (alookup p.1 bm).isSome)).length = 0 ∨
        bm.length = 0
    · rw [if_pos hres]
      simp only [true_iff]
      left
      rcases hres with h | h
      · intro p hp
        have hall : ¬ ((alookup p.1 bm).isSome = true) :=
          List.filter_eq_nil_iff.mp (List.length_eq_zero.mp h) p hp
        rcases halo : alookup p.1 bm with _ | v
        · rfl
        · rw [halo] at hall
          simp at hall
      · have hbm : bm = [] := List.length_eq_zero.mp h
        subst hbm
        intro p _
        rfl
    · rw [if_neg hres]
      push_neg at hres
      obtain ⟨hr0, _⟩ := hres
      by_cases hbuck : 0 < ((alookup (selected_level bm lr g) bm).getD []).length
      · rw [if_pos hbuck]
        simp only
        have hlt : g.stream (g.pos + 1) % ((alookup (selected_level bm lr g) bm).getD []).length <
            ((alookup (selected_level bm lr g) bm).getD []).length := Nat.mod_lt _ hbuck
        rw [List.get?_eq_get hlt]
        constructor
        · intro h
          simp at h
        · intro h
          rcases h with h | h
          · exfalso
            apply hr0
            apply List.length_eq_zero.mpr
            apply List.filter_eq_nil_iff.mpr
            intro p hp
            simp [h p hp]
          · rw [h] at hbuck
            simp at hbuck
      · rw [if_neg hbuck]
        simp only [true_iff]
        right
        rcases hb : (alookup (selected_level bm lr g) bm).getD [] with _ | ⟨b, bs⟩
        · rfl
        · rw [hb] at hbuck
          simp at hbuck

/-- C10 witness: the specification instantiated at the one-entry bucket map
with an empty level-0 bucket (the shape _get_runes_info builds), an empty
weight map, and the all-zero oracle; the positivity hypothesis is discharged
vacuously. -/
theorem c10_get_random_item_spec_witness :
    ∃ (r : Option AonItemJson) (g' : Rng),
      get_random_item [((0 : ℤ), ([] : List AonItemJson))] ⟨[]⟩ ⟨fun _ => 0, 0⟩ = .ok (r, g') ∧
      (r = none ↔ (∀ p ∈ ([] : List (ℤ × ℚ)), alookup p.1 [((0 : ℤ), ([] : List AonItemJson))] = none) ∨
        (alookup (selected_level [((0 : ℤ), ([] : List AonItemJson))] ⟨[]⟩ ⟨fun _ => 0, 0⟩)
          [((0 : ℤ), ([] : List AonItemJson))]).getD [] = []) ∧
      (∀ x, r = some x →
        x ∈ (alookup (selected_level [((0 : ℤ), ([] : List AonItemJson))] ⟨[]⟩ ⟨fun _ => 0, 0⟩)
          [((0 : ℤ), ([] : List AonItemJson))]).getD []) :=
  c10_get_random_item_spec [((0 : ℤ), [])] ⟨[]⟩ ⟨fun _ => 0, 0⟩ (by simp)

theorem ibrl_step_mem (d : List (String × List (ℤ × List AonItemJson)))
    (it x : AonItemJson) (r : String) (L : ℤ)
    (hx : x ∈ (alookup L ((alookup r (ibrl_step d it)).getD [])).getD []) :
    x ∈ (alookup L ((alookup r d).getD [])).getD [] ∨
      (x = it ∧ r = it.rarity ∧ L = it.level) := by
  unfold ibrl_step at hx
  by_cases hr : r = it.rarity
  · rw [dictSet_alookup, if_pos hr] at hx
    simp only [Option.getD_some] at hx
    rw [dictAppendAt_alookup] at hx
    by_cases hL : L = it.level
    · rw [if_pos hL] at hx
      simp only [Option.getD_some] at hx
      rcases List.mem_append.mp hx with h | h
      · left
        rw [hr, hL]
        exact h
      · right
        exact ⟨List.mem_singleton.mp h, hr, hL⟩
    · rw [if_neg hL] at hx
      left
      rw [hr]
      exact hx
  · rw [dictSet_alookup, if_neg hr] at hx
    left
    exact hx

theorem ibrl_fold_mem (items : List AonItemJson) :
    ∀ (d : List (String × List (ℤ × List AonItemJson))) (x : AonItemJson) (r : String) (L : ℤ),
      x ∈ (alookup L ((alookup r (items.foldl ibrl_step d)).getD [])).getD [] →
      x ∈ (alookup L ((alookup r d).getD [])).getD [] ∨
        (x ∈ items ∧ x.rarity = r ∧ x.level = L) := by
  induction items with
  | nil =>
    intro d x r L hx
    exact Or.inl hx
  | cons it rest ih =>
    intro d x r L hx
    rw [List.foldl_cons] at hx
    rcases ih (ibrl_step d it) x r L hx with h | h
    · rcases ibrl_step_mem d it x r L h with h' | h'
      · exact Or.inl h'
      · right
        exact ⟨h'.1 ▸ List.mem_cons_self it rest, h'.1 ▸ h'.2.1.symm, h'.1 ▸ h'.2.2.symm⟩
    · right
      exact ⟨List.mem_cons_of_mem it h.1, h.2⟩

theorem items_by_rarity_mem (items : List AonItemJson) (x : AonItemJson)
    (r : String) (L : ℤ)
    (hx : x ∈ (alookup L ((alookup r (items_by_rarity_by_level items)).getD [])).getD []) :
    x ∈ items ∧ x.rarity = r ∧ x.level = L := by
  rcases ibrl_fold_mem items [] x r L hx with h | h
  · simp [alookup] at h
  · exact h

theorem repeatDraws_grs {α : Type} (bm : List (ℤ × List α)) (lr : LevelRequest)
    (hw : ∀ p ∈ lr.weights, 0 < p.2) :
    ∀ (n : ℕ) (g : Rng), ∃ (l : List (Option α)) (g' : Rng),
      repeatDraws (get_random_item bm lr) n g = .ok (l, g') ∧ l.length = n ∧
      ∀ x ∈ l, x = none ∨ ∃ a, x = some a ∧ ∃ L, a ∈ (alookup L bm).getD [] := by
  intro n
  induction n with
  | zero => exact fun g => ⟨[], g, rfl, rfl, by simp⟩
  | succ k ih =>
    intro g
    obtain ⟨l, g', hl, hlen, hmem⟩ := ih (gri_result bm lr g).2
    refine ⟨(gri_result bm lr g).1 :: l, g', ?_, by simp [hlen], ?_⟩
    · unfold repeatDraws
      rw [get_random_item_eq bm lr g hw]
      simp only [Bind.bind, Except.bind]
      rw [hl]
    · intro x hx
      rcases List.mem_cons.mp hx with h | h
      · subst h
        rcases hres : (gri_result bm lr g).1 with _ | a
        · exact Or.inl rfl
        · right
          exact ⟨a, rfl, selected_level bm lr g, gri_result_mem bm lr g a hres⟩
      · exact hmem x h

theorem except_bind_ok {α β : Type} (a : α) (f : α → Except String β) :
    (Except.ok a >>= f : Except String β) = f a := rfl

/-- C2 (amended): for every item pool, every weight map with strictly
positive weights, and every RarityRequest with non-negative counts, the
rarity-bucketed sampler returns (without raising) a list that splits as
common ++ uncommon ++ rare ++ unique segments of exactly the requested
lengths, of total length the sum of the requested counts; every entry of a
segment is None or an item of the pool carrying that segment's rarity. -/
theorem c2_sampler_amended (items : List AonItemJson) (esr : EquipmentSearchRequest)
    (g : Rng)
    (hcn : 0 ≤ esr.rarity_request.common_number)
    (hun : 0 ≤ esr.rarity_request.uncommon_number)
    (hrn : 0 ≤ esr.rarity_request.rare_number)
    (hqn : 0 ≤ esr.rarity_request.unique_number)
    (hw : ∀ p ∈ esr.level_request.weights, 0 < p.2) :
    ∃ (lc lu lrr lq : List (Option AonItemJson)) (g' : Rng),
      choose_items_by_level_and_rarity items esr g = .ok (lc ++ lu ++ lrr ++ lq, g') ∧
      lc.length = esr.rarity_request.common_number.toNat ∧
      lu.length = esr.rarity_request.uncommon_number.toNat ∧
      lrr.length = esr.rarity_request.rare_number.toNat ∧
      lq.length = esr.rarity_request.unique_number.toNat ∧
      (lc ++ lu ++ lrr ++ lq).length =
        (esr.rarity_request.common_number + esr.rarity_request.uncommon_number +
          esr.rarity_request.rare_number + esr.rarity_request.unique_number).toNat ∧
      (∀ x ∈ lc, tier_draw_ok items "common" x) ∧
      (∀ x ∈ lu, tier_draw_ok items "uncommon" x) ∧
      (∀ x ∈ lrr, tier_draw_ok items "rare" x) ∧
      (∀ x ∈ lq, tier_draw_ok items "unique" x) := by
  have hmem : ∀ (rarity : String) (n : ℕ) (g0 : Rng),
      ∃ (l : List (Option AonItemJson)) (g' : Rng),
        repeatDraws (get_random_item
          ((alookup rarity (items_by_rarity_by_level items)).getD [])
          esr.level_request) n g0 = .ok (l, g') ∧ l.length = n ∧
        ∀ x ∈ l, tier_draw_ok items rarity x := by
    intro rarity n g0
    obtain ⟨l, g', hl, hlen, hm⟩ :=
      repeatDraws_grs ((alookup rarity (items_by_rarity_by_level items)).getD [])
        esr.level_request hw n g0
    refine ⟨l, g', hl, hlen, fun x hx => ?_⟩
    rcases hm x hx with h | ⟨a, rfl, L, ha⟩
    · exact Or.inl h
    · exact Or.inr ⟨a, rfl, (items_by_rarity_mem items a rarity L ha).1,
        (items_by_rarity_mem items a rarity L ha).2.1⟩
  obtain ⟨lc, g1, h1, hlen1, hm1⟩ :=
    hmem "common" esr.rarity_request.common_number.toNat g
  obtain ⟨lu, g2, h2, hlen2, hm2⟩ :=
    hmem "uncommon" esr.rarity_request.uncommon_number.toNat g1
  obtain ⟨lrr, g3, h3, hlen3, hm3⟩ :=
    hmem "rare" esr.rarity_request.rare_number.toNat g2
  obtain ⟨lq, g4, h4, hlen4, hm4⟩ :=
    hmem "unique" esr.rarity_request.unique_number.toNat g3
  refine ⟨lc, lu, lrr, lq, g4, ?_, hlen1, hlen2, hlen3, hlen4, ?_, hm1, hm2, hm3, hm4⟩
  · simp only [choose_items_by_level_and_rarity]
    rw [h1]
    simp only [except_bind_ok]
    rw [h2]
    simp only [except_bind_ok]
    rw [h3]
    simp only [except_bind_ok]
    rw [h4]
    simp only [except_bind_ok]
  · simp only [List.length_append, hlen1, hlen2, hlen3, hlen4]
    omega

/-- C2 counterexample: the claim as stated quantifies over every weight map,
but on the weight map assigning weight 0.0 to level 5, a pool holding one
common level-5 item, and the request (1, 0, 0, 0), random.choices raises
ValueError (total of weights must be greater than zero) instead of
returning a one-element list. -/
theorem c2_sampler_counterexample :
    exceptIsOk (choose_items_by_level_and_rarity
      [⟨"Trinket", "common", 5, "", "equipment", "", "", [], [], ""⟩]
      ⟨⟨1, 0, 0, 0⟩, ⟨[], [], ["equipment"]⟩, ⟨[((5 : ℤ), (0 : ℚ))]⟩⟩
      ⟨fun _ => 0, 0⟩) = false := by
  norm_num [choose_items_by_level_and_rarity, items_by_rarity_by_level, ibrl_step,
    dictSet, dictAppendAt, alookup, repeatDraws, get_random_item, pyChoices, exceptIsOk,
    Bind.bind, Except.bind]

/-- C2 witness: the amended statement instantiated at the empty pool, the
all-zero request and the empty weight map, whose positivity hypothesis holds
vacuously. -/
theorem c2_sampler_amended_witness :
    ∃ (lc lu lrr lq : List (Option AonItemJson)) (g' : Rng),
      choose_items_by_level_and_rarity []
        ⟨⟨0, 0, 0, 0⟩, ⟨[], [], ["equipment"]⟩, ⟨[]⟩⟩ ⟨fun _ => 0, 0⟩ =
        .ok (lc ++ lu ++ lrr ++ lq, g') ∧
      lc.length = (0 : ℤ).toNat ∧ lu.length = (0 : ℤ).toNat ∧
      lrr.length = (0 : ℤ).toNat ∧ lq.length = (0 : ℤ).toNat ∧
      (lc ++ lu ++ lrr ++ lq).length = ((0 : ℤ) + 0 + 0 + 0).toNat ∧
      (∀ x ∈ lc, tier_draw_ok [] "common" x) ∧
      (∀ x ∈ lu, tier_draw_ok [] "uncommon" x) ∧
      (∀ x ∈ lrr, tier_draw_ok [] "rare" x) ∧
      (∀ x ∈ lq, tier_draw_ok [] "unique" x) :=
  c2_sampler_amended [] ⟨⟨0, 0, 0, 0⟩, ⟨[], [], ["equipment"]⟩, ⟨[]⟩⟩ ⟨fun _ => 0, 0⟩
    (by decide) (by decide) (by decide) (by decide) (by simp)

theorem except_bind_ok_inv {α β : Type} (a : Except String α) (f : α → Except String β)
    (c : β) (h : (a >>= f : Except String β) = .ok c) : ∃ b, a = .ok b ∧ f b = .ok c := by
  cases a with
  | ok b => exact ⟨b, rfl, h⟩
  | error e => exact absurd h (by simp [Bind.bind, Except.bind])

theorem pyChoice_mem {α : Type} (l : List α) (g : Rng) (x : α) (g' : Rng)
    (h : pyChoice l g = .ok (x, g')) : x ∈ l := by
  cases l with
  | nil => exact absurd h (by simp [pyChoice])
  | cons b bs =>
    rw [pyChoice_cons] at h
    have hx : (b :: bs).getD (g.stream g.pos % (b :: bs).length) b = x := by
      have := congrArg (fun e => match e with | Except.ok p => p.1 | Except.error _ => b) h
      simpa using this
    rw [← hx]
    have hlt : g.stream g.pos % (b :: bs).length < (b :: bs).length :=
      Nat.mod_lt _ (by simp)
    rw [List.getD_eq_getElem (b :: bs) b hlt]
    exact List.getElem_mem hlt

theorem pyRandrange_inv (lo hi : ℤ) (g : Rng) (k : ℤ) (g' : Rng)
    (h : pyRandrange lo hi g = .ok (k, g')) : lo ≤ k ∧ k < hi := by
  unfold pyRandrange at h
  by_cases hc : hi ≤ lo
  · rw [if_pos hc] at h
    exact absurd h (by simp)
  · rw [if_neg hc] at h
    push_neg at hc
    have hk : lo + ((g.stream g.pos % (hi - lo).toNat : ℕ) : ℤ) = k := by
      have := congrArg (fun e => match e with | Except.ok p => p.1 | Except.error _ => lo) h
      simpa using this
    have hpos : 0 < (hi - lo).toNat := by omega
    have hlt : g.stream g.pos % (hi - lo).toNat < (hi - lo).toNat := Nat.mod_lt _ hpos
    omega

theorem draw_property_runes_length (pm : List (ℤ × List (Option AonItemJson)))
    (lr : LevelRequest) :
    ∀ (n : ℕ) (g : Rng) (l : List AonItemJson) (g' : Rng),
      draw_property_runes pm lr n g = .ok (l, g') → l.length ≤ n := by
  intro n
  induction n with
  | zero =>
    intro g l g' h
    unfold draw_property_runes at h
    have : l = [] := by
      have := congrArg (fun e => match e with | Except.ok p => p.1 | Except.error _ => l) h
      simpa using this.symm
    simp [this]
  | succ k ih =>
    intro g l g' h
    unfold draw_property_runes at h
    obtain ⟨⟨r, g1⟩, _, h2⟩ := except_bind_ok_inv _ _ _ h
    obtain ⟨⟨rest, g2⟩, hrest, h3⟩ := except_bind_ok_inv _ _ _ h2
    have hlen := ih g1 rest g2 hrest
    rcases hr : r.join with _ | rune
    · rw [hr] at h3
      have hrl : rest = l := by
        have := congrArg (fun e => match e with | Except.ok p => p.1 | Except.error _ => l) h3
        simpa using this
      subst hrl
      omega
    · rw [hr] at h3
      have hcons : rune :: rest = l := by
        have := congrArg (fun e => match e with | Except.ok p => p.1 | Except.error _ => l) h3
        simpa using this
      have hll : l.length = rest.length + 1 := by rw [← hcons]; simp
      omega

theorem parts_inv (ri : RunesInfo) (sr : ItemWithRunesSearchRequest) (g : Rng)
    (iwr : ItemWithRunes) (gf : Rng)
    (h : get_random_item_with_runes_parts ri sr g = .ok (iwr, gf)) :
    ∃ (op : Option AonItemJson) (g1 : Rng) (rank : ℤ) (os : Option AonItemJson) (g2 : Rng)
      (k : ℤ) (g3 : Rng) (props : List AonItemJson) (g4 : Rng) (base : AonItemJson) (g5 : Rng),
      get_random_item ri.item_potency_level_to_item sr.level_request g = .ok (op, g1) ∧
      potency_rank_of op = .ok rank ∧
      get_random_item ri.item_strength_level_to_item sr.level_request g1 = .ok (os, g2) ∧
      pyRandrange 0 (rank + 1) g2 = .ok (k, g3) ∧
      draw_property_runes ri.item_property_runes_level_to_items sr.level_request
        k.toNat g3 = .ok (props, g4) ∧
      pyChoice ri.items g4 = .ok (base, g5) ∧
      iwr = ⟨base, op, os, ri.item_type_data, props⟩ ∧ gf = g5 := by
  unfold get_random_item_with_runes_parts at h
  obtain ⟨⟨op, g1⟩, hop, h⟩ := except_bind_ok_inv _ _ _ h
  obtain ⟨rank, hrank, h⟩ := except_bind_ok_inv _ _ _ h
  obtain ⟨⟨os, g2⟩, hos, h⟩ := except_bind_ok_inv _ _ _ h
  obtain ⟨⟨k, g3⟩, hk, h⟩ := except_bind_ok_inv _ _ _ h
  obtain ⟨⟨props, g4⟩, hprops, h⟩ := except_bind_ok_inv _ _ _ h
  obtain ⟨⟨base, g5⟩, hbase, h⟩ := except_bind_ok_inv _ _ _ h
  refine ⟨op, g1, rank, os, g2, k, g3, props, g4, base, g5,
    hop, hrank, hos, hk, hprops, hbase, ?_, ?_⟩
  · have := congrArg (fun e => match e with
      | Except.ok (p : ItemWithRunes × Rng) => p.1
      | Except.error _ => iwr) h
    simpa using this.symm
  · have := congrArg (fun e => match e with
      | Except.ok (p : ItemWithRunes × Rng) => p.2
      | Except.error _ => gf) h
    simpa using this.symm

theorem foldr_max_nonneg (pl : List ℤ) : 0 ≤ pl.foldr (fun y m => max y m) 0 := by
  induction pl with
  | nil => simp
  | cons c t ih => simp only [List.foldr_cons]; omega

theorem foldl_max_pad (pl : List ℤ) :
    ∀ I : ℤ, 0 ≤ I → pl.foldl max I = max I (pl.foldr (fun y m => max y m) 0) := by
  induction pl with
  | nil => intro I hI; simp; omega
  | cons c t ih =>
    intro I hI
    simp only [List.foldl_cons, List.foldr_cons]
    rw [ih (max I c) (by omega)]
    omega

theorem get_level_eq_claimed (s : ItemWithRunes) (hb : 0 ≤ s.item.level) :
    s.get_level = claimed_composite_level s := by
  have hfr : (s.property_runes.map (fun it => it.level)).foldr (fun y m => max y m) 0 =
      s.property_runes.foldr (fun it m => max it.level m) 0 := by
    rw [List.foldr_map]
  have hnn := foldr_max_nonneg (s.property_runes.map (fun it => it.level))
  rcases hp : s.potency with _ | p <;> rcases hs : s.strength with _ | st <;>
    · unfold ItemWithRunes.get_level ItemWithRunes.get_all_as_list claimed_composite_level
      rw [hp, hs]
      simp only [List.cons_append, List.nil_append, List.filterMap_cons, id_eq,
        List.filterMap_map, Function.comp_def, List.filterMap_some,
        Option.map_some, Option.map_none, Option.getD_some, Option.getD_none,
        maxOfList, List.map_cons, List.foldl_cons]
      rw [foldl_max_pad _ _ (by omega), hfr]
      simp only [Option.map_none', Option.map_some', Option.getD_some, Option.getD_none]
      try omega

/-- C3: every composite drawn by the part-drawing phase of
_get_random_item_with_runes has level equal to the maximum of the levels of
its present parts, absent parts contributing 0, provided the base item pool
respects the catalog invariant of non-negative levels (with a negative base
level and no runes, get_level would return that negative level while the
0-padded formula returns at least 0). -/
theorem c3_composite_level (ri : RunesInfo) (sr : ItemWithRunesSearchRequest) (g : Rng)
    (iwr : ItemWithRunes) (g' : Rng)
    (hpool : ∀ it ∈ ri.items, 0 ≤ it.level)
    (h : get_random_item_with_runes_parts ri sr g = .ok (iwr, g')) :
    iwr.get_level = claimed_composite_level iwr := by
  obtain ⟨op, g1, rank, os, g2, k, g3, props, g4, base, g5,
    hop, hrank, hos, hk, hprops, hbase, hiwr, hg⟩ := parts_inv ri sr g iwr g' h
  have hmem := pyChoice_mem ri.items g4 base g5 hbase
  have hb : 0 ≤ iwr.item.level := by
    rw [hiwr]
    exact hpool base hmem
  exact get_level_eq_claimed iwr hb

/-- C3 witness: the theorem applied to a concrete one-weapon runes setup
with an empty weight map, whose draw yields a bare composite; both
hypotheses are discharged concretely. -/
theorem c3_composite_level_witness :
    (⟨⟨"Longsword", "common", 1, "", "weapon", "", "1 gp", [], [], ""⟩, none, none,
      ⟨"Weapon", "Striking", 1⟩, []⟩ : ItemWithRunes).get_level =
    claimed_composite_level
      ⟨⟨"Longsword", "common", 1, "", "weapon", "", "1 gp", [], [], ""⟩, none, none,
        ⟨"Weapon", "Striking", 1⟩, []⟩ :=
  c3_composite_level
    ⟨[((0 : ℤ), [])], [((0 : ℤ), [])], [((0 : ℤ), [none])],
      [⟨"Longsword", "common", 1, "", "weapon", "", "1 gp", [], [], ""⟩],
      ⟨"Weapon", "Striking", 1⟩⟩
    ⟨⟨[]⟩, 1, 0⟩ ⟨fun _ => 0, 0⟩ _ ⟨fun _ => 0, 2⟩
    (by decide) (by rfl)

/-- C5: every composite drawn by the part-drawing phase carries between 0
and potency_rank property runes, where potency_rank is the integer parsed
from the drawn potency rune's trailing +N token (0 when no potency rune was
drawn); in particular a composite without potency rune has no property
runes. -/
theorem c5_property_rune_count (ri : RunesInfo) (sr : ItemWithRunesSearchRequest)
    (g : Rng) (iwr : ItemWithRunes) (g' : Rng)
    (h : get_random_item_with_runes_parts ri sr g = .ok (iwr, g')) :
    ∃ rank : ℤ, potency_rank_of iwr.potency = .ok rank ∧
      0 ≤ (iwr.property_runes.length : ℤ) ∧ (iwr.property_runes.length : ℤ) ≤ rank := by
  obtain ⟨op, g1, rank, os, g2, k, g3, props, g4, base, g5,
    hop, hrank, hos, hk, hprops, hbase, hiwr, hg⟩ := parts_inv ri sr g iwr g' h
  refine ⟨rank, ?_, by positivity, ?_⟩
  · rw [hiwr]
    exact hrank
  · have hkr := pyRandrange_inv 0 (rank + 1) g2 k g3 hk
    have hlen := draw_property_runes_length ri.item_property_runes_level_to_items
      sr.level_request k.toNat g3 props g4 hprops
    rw [hiwr]
    simp only
    omega

/-- C5 witness: the theorem applied to the same concrete draw as the C3
witness, discharging the run equation by computation. -/
theorem c5_property_rune_count_witness :
    ∃ rank : ℤ,
      potency_rank_of (⟨⟨"Longsword", "common", 1, "", "weapon", "", "1 gp", [], [], ""⟩,
        none, none, ⟨"Weapon", "Striking", 1⟩, []⟩ : ItemWithRunes).potency = .ok rank ∧
      0 ≤ (((⟨⟨"Longsword", "common", 1, "", "weapon", "", "1 gp", [], [], ""⟩, none, none,
        ⟨"Weapon", "Striking", 1⟩, []⟩ : ItemWithRunes).property_runes.length : ℤ)) ∧
      (((⟨⟨"Longsword", "common", 1, "", "weapon", "", "1 gp", [], [], ""⟩, none, none,
        ⟨"Weapon", "Striking", 1⟩, []⟩ : ItemWithRunes).property_runes.length : ℤ)) ≤ rank :=
  c5_property_rune_count
    ⟨[((0 : ℤ), [])], [((0 : ℤ), [])], [((0 : ℤ), [none])],
      [⟨"Longsword", "common", 1, "", "weapon", "", "1 gp", [], [], ""⟩],
      ⟨"Weapon", "Striking", 1⟩⟩
    ⟨⟨[]⟩, 1, 0⟩ ⟨fun _ => 0, 0⟩ _ ⟨fun _ => 0, 2⟩ (by rfl)

theorem repeatDraws_inv {β : Type} (f : Rng → Except String (β × Rng)) :
    ∀ (n : ℕ) (g : Rng) (l : List β) (g' : Rng),
      repeatDraws f n g = .ok (l, g') →
      l.length = n ∧ ∀ x ∈ l, ∃ g0 g1, f g0 = .ok (x, g1) := by
  intro n
  induction n with
  | zero =>
    intro g l g' h
    unfold repeatDraws at h
    have hl : l = [] := by
      have := congrArg (fun e => match e with | Except.ok p => p.1 | Except.error _ => l) h
      simpa using this.symm
    subst hl
    exact ⟨rfl, by simp⟩
  | succ k ih =>
    intro g l g' h
    unfold repeatDraws at h
    obtain ⟨⟨x, g1⟩, hx, h2⟩ := except_bind_ok_inv _ _ _ h
    obtain ⟨⟨rest, g2⟩, hrest, h3⟩ := except_bind_ok_inv _ _ _ h2
    obtain ⟨hlen, hmem⟩ := ih g1 rest g2 hrest
    have hl : x :: rest = l := by
      have := congrArg (fun e => match e with | Except.ok p => p.1 | Except.error _ => l) h3
      simpa using this
    subst hl
    refine ⟨by simp [hlen], ?_⟩
    intro y hy
    rcases List.mem_cons.mp hy with rfl | hy'
    · exact ⟨g, g1, hx⟩
    · exact hmem y hy'

theorem girwr_rarity (ri : RunesInfo) (sr : ItemWithRunesSearchRequest) (g : Rng)
    (out : ItemOutputData) (g' : Rng)
    (h : get_random_item_with_runes ri sr g = .ok (out, g')) :
    out.rarity = "unique" := by
  unfold get_random_item_with_runes at h
  obtain ⟨⟨iwr, g1⟩, _, h2⟩ := except_bind_ok_inv _ _ _ h
  obtain ⟨price, _, h3⟩ := except_bind_ok_inv _ _ _ h2
  have hr := congrArg (fun e => match e with
    | Except.ok (p : ItemOutputData × Rng) => p.1.rarity
    | Except.error _ => out.rarity) h3
  simpa using hr.symm

/-- C6: whenever _generate_items_with_runes returns normally (the catalog
holds the canonical runes, the pool is non-empty and every drawn price
parses), it returns exactly amount composites, each with rarity unique,
for every non-negative amount and every item type. -/
theorem c6_generate_items_with_runes (loader : String → List AonItemJson)
    (item_type_data : ItemTypeData) (sr : ItemWithRunesSearchRequest) (g : Rng)
    (l : List ItemOutputData) (g' : Rng)
    (hamt : 0 ≤ item_type_data.amount)
    (h : generate_items_with_runes loader item_type_data sr g = .ok (l, g')) :
    (l.length : ℤ) = item_type_data.amount ∧ ∀ out ∈ l, out.rarity = "unique" := by
  unfold generate_items_with_runes at h
  obtain ⟨ri, hri, hrep⟩ := except_bind_ok_inv _ _ _ h
  obtain ⟨hlen, hmem⟩ := repeatDraws_inv _ _ _ _ _ hrep
  constructor
  · rw [hlen]
    omega
  · intro out hout
    obtain ⟨g0, g1, hdraw⟩ := hmem out hout
    exact girwr_rarity ri sr g0 out g1 hdraw

theorem mapM_ok_forall {α β : Type} (f : α → Except String β) :
    ∀ (l : List α) (ys : List β), l.mapM f = .ok ys → ∀ x ∈ l, ∃ y, f x = .ok y := by
  intro l
  induction l with
  | nil => intro ys _ x hx; exact absurd hx (by simp)
  | cons a t ih =>
    intro ys h x hx
    rw [List.mapM_cons] at h
    obtain ⟨y, hy, h2⟩ := except_bind_ok_inv _ _ _ h
    obtain ⟨ts, hts, _⟩ := except_bind_ok_inv _ _ _ h2
    rcases List.mem_cons.mp hx with rfl | hx'
    · exact ⟨y, hy⟩
    · exact ih ts hts x hx'

theorem first_ok_inv {α : Type} (p : α → Bool) (l : List α) (x : α)
    (h : first p l = .ok x) : x ∈ l ∧ p x = true := by
  unfold first at h
  rcases hf : l.find? p with _ | y
  · rw [hf] at h
    exact absurd h (by simp)
  · rw [hf] at h
    have hyx : y = x := by
      have := congrArg (fun e => match e with | Except.ok v => v | Except.error _ => y) h
      simpa using this
    subst hyx
    exact ⟨List.mem_of_find?_eq_some hf, List.find?_some hf⟩

/-- C7: if any of the three canonical potency rune names or the three
canonical strength rune names has no matching entry in the equipment
catalog, _get_runes_info raises (StopIteration from first), and composite
generation through _generate_items_with_runes raises as well and cannot
return any result. -/
theorem c7_missing_canonical_rune_fatal (loader : String → List AonItemJson)
    (item_type_data : ItemTypeData)
    (hmiss : ∃ nm ∈ canonical_rune_names item_type_data,
      ∀ it ∈ loader "equipment", it.name ≠ nm) :
    (∃ e, get_runes_info loader item_type_data = .error e) ∧
    ∀ (sr : ItemWithRunesSearchRequest) (g : Rng),
      ∃ e, generate_items_with_runes loader item_type_data sr g = .error e := by
  have herr : ∃ e, get_runes_info loader item_type_data = .error e := by
    rcases hr : get_runes_info loader item_type_data with e | ri
    case error => exact ⟨e, rfl⟩
    case ok =>
      exfalso
      unfold get_runes_info at hr
      obtain ⟨pots, hpots, hr2⟩ := except_bind_ok_inv _ _ _ hr
      obtain ⟨strs, hstrs, _⟩ := except_bind_ok_inv _ _ _ hr2
      obtain ⟨nm, hnm, hnone⟩ := hmiss
      unfold canonical_rune_names at hnm
      rcases List.mem_append.mp hnm with hnm' | hnm'
      · obtain ⟨it, hit⟩ := mapM_ok_forall _ _ _ hpots nm hnm'
        obtain ⟨hmem, hbeq⟩ := first_ok_inv _ _ _ hit
        exact hnone it hmem (by simpa using hbeq)
      · obtain ⟨it, hit⟩ := mapM_ok_forall _ _ _ hstrs nm hnm'
        obtain ⟨hmem, hbeq⟩ := first_ok_inv _ _ _ hit
        exact hnone it hmem (by simpa using hbeq)
  obtain ⟨e, he⟩ := herr
  refine ⟨⟨e, he⟩, fun sr g => ⟨e, ?_⟩⟩
  unfold generate_items_with_runes
  rw [he]
  rfl


/-- C6 witness: the theorem applied to a six-rune catalog with one weapon,
amount 1 and the empty weight map; the run equation is discharged by
computation and the output is one unique-rarity composite. -/
theorem c6_generate_items_with_runes_witness :
    ((([(⟨"Longsword", "unique", 1, "1 gp", "", none⟩ : ItemOutputData)]).length : ℤ) =
      (⟨"Weapon", "Striking", 1⟩ : ItemTypeData).amount) ∧
    ∀ out ∈ [(⟨"Longsword", "unique", 1, "1 gp", "", none⟩ : ItemOutputData)],
      out.rarity = "unique" :=
  c6_generate_items_with_runes
    (fun cat =>
      if cat = "equipment" then
        [⟨"Weapon Potency (+1)", "common", 2, "", "equipment", "", "", [], [], ""⟩,
         ⟨"Weapon Potency (+2)", "common", 10, "", "equipment", "", "", [], [], ""⟩,
         ⟨"Weapon Potency (+3)", "common", 16, "", "equipment", "", "", [], [], ""⟩,
         ⟨"Striking", "common", 4, "", "equipment", "", "", [], [], ""⟩,
         ⟨"Striking (Greater)", "common", 12, "", "equipment", "", "", [], [], ""⟩,
         ⟨"Striking (Major)", "common", 19, "", "equipment", "", "", [], [], ""⟩]
      else if cat = "weapon" then
        [⟨"Longsword", "common", 1, "", "weapon", "", "1 gp", [], [], ""⟩]
      else [])
    ⟨"Weapon", "Striking", 1⟩ ⟨⟨[]⟩, 1, 0⟩ ⟨fun _ => 0, 0⟩
    [⟨"Longsword", "unique", 1, "1 gp", "", none⟩] ⟨fun _ => 0, 2⟩
    (by decide) (by rfl)

/-- C7 witness: the theorem applied to an empty catalog, where the first
canonical potency name has no match; both the setup and the generation are
errors. -/
theorem c7_missing_canonical_rune_fatal_witness :
    (∃ e, get_runes_info (fun _ => []) ⟨"Weapon", "Striking", 0⟩ = .error e) ∧
    ∀ (sr : ItemWithRunesSearchRequest) (g : Rng),
      ∃ e, generate_items_with_runes (fun _ => []) ⟨"Weapon", "Striking", 0⟩ sr g =
        .error e :=
  c7_missing_canonical_rune_fatal (fun _ => []) ⟨"Weapon", "Striking", 0⟩
    ⟨"Weapon Potency (+1)", by decide, by simp⟩

theorem digitChar_isDigit (d : ℕ) (hd : d < 10) : (Nat.digitChar d).isDigit = true := by
  interval_cases d <;> decide

theorem digitChar_toNat (d : ℕ) (hd : d < 10) : (Nat.digitChar d).toNat = 48 + d := by
  interval_cases d <;> decide

theorem isDigit_toNat_bounds (c : Char) (h : c.isDigit = true) :
    48 ≤ c.toNat ∧ c.toNat ≤ 57 := by
  unfold Char.isDigit at h
  simp only [Bool.and_eq_true, decide_eq_true_eq] at h
  exact ⟨h.1, h.2⟩

theorem isDigit_ne_comma (c : Char) (h : c.isDigit = true) : c ≠ ',' := by
  intro hc
  subst hc
  exact absurd h (by decide)

theorem isDigit_ne_space (c : Char) (h : c.isDigit = true) : c ≠ ' ' := by
  intro hc
  subst hc
  exact absurd h (by decide)

theorem isDigit_ne_plus (c : Char) (h : c.isDigit = true) : c ≠ '+' := by
  intro hc
  subst hc
  exact absurd h (by decide)

theorem isDigit_ne_minus (c : Char) (h : c.isDigit = true) : c ≠ '-' := by
  intro hc
  subst hc
  exact absurd h (by decide)

theorem natToChars_eq_digits (fuel : ℕ) :
    ∀ (n : ℕ), n < fuel → 1 ≤ n → ∀ (acc : List Char),
      natToChars fuel n acc = (Nat.digits 10 n).reverse.map Nat.digitChar ++ acc := by
  induction fuel with
  | zero => intro n hn; omega
  | succ f ih =>
    intro n hn h1 acc
    unfold natToChars
    by_cases hlt : n < 10
    · rw [if_pos hlt]
      have hdig : Nat.digits 10 n = [n] := by
        rw [Nat.digits_def' (by norm_num : 1 < 10) (by omega)]
        have : n / 10 = 0 := by omega
        rw [this]
        simp [Nat.mod_eq_of_lt hlt]
      rw [hdig]
      simp
    · rw [if_neg hlt]
      have hge : 1 ≤ n / 10 := by omega
      have hfl : n / 10 < f := by omega
      rw [ih (n / 10) hfl hge]
      have hdig : Nat.digits 10 n = n % 10 :: Nat.digits 10 (n / 10) :=
        Nat.digits_def' (by norm_num : 1 < 10) (by omega)
      rw [hdig]
      simp

theorem parseDigitsAux_all_digits :
    ∀ (l : List Char) (a : ℕ), (∀ c ∈ l, c.isDigit = true) →
      parseDigitsAux a l = some (l.foldl (fun acc c => acc * 10 + (c.toNat - 48)) a) := by
  intro l
  induction l with
  | nil => intro a _; rfl
  | cons c cs ih =>
    intro a h
    unfold parseDigitsAux
    rw [if_pos (h c (List.mem_cons_self c cs))]
    rw [ih _ (fun c' hc' => h c' (List.mem_cons_of_mem c hc'))]
    rfl

theorem foldr_eq_ofDigits : ∀ (l : List ℕ),
    l.foldr (fun d acc => acc * 10 + d) 0 = Nat.ofDigits 10 l := by
  intro l
  induction l with
  | nil => rfl
  | cons d t ih =>
    rw [List.foldr_cons, ih, Nat.ofDigits_cons]
    ring

theorem natToString_foldl (n : ℕ) :
    (natToString n).data.foldl (fun acc c => acc * 10 + (c.toNat - 48)) 0 = n := by
  by_cases h1 : 1 ≤ n
  · have hchars : (natToString n).data = (Nat.digits 10 n).reverse.map Nat.digitChar := by
      unfold natToString
      rw [natToChars_eq_digits (n + 1) n (by omega) h1 []]
      simp
    rw [hchars]
    have hlt : ∀ d ∈ (Nat.digits 10 n).reverse, d < 10 := by
      intro d hd
      exact Nat.digits_lt_base (by norm_num) (List.mem_reverse.mp hd)
    rw [List.foldl_map]
    have hfold : ∀ (ds : List ℕ), (∀ d ∈ ds, d < 10) → ∀ (a : ℕ),
        ds.foldl (fun acc d => acc * 10 + ((Nat.digitChar d).toNat - 48)) a =
        ds.foldl (fun acc d => acc * 10 + d) a := by
      intro ds
      induction ds with
      | nil => intro _ a; rfl
      | cons d t ih2 =>
        intro hds a
        simp only [List.foldl_cons]
        rw [digitChar_toNat d (hds d (List.mem_cons_self d t))]
        have : 48 + d - 48 = d := by omega
        rw [this, ih2 (fun d' hd' => hds d' (List.mem_cons_of_mem d hd'))]
    rw [hfold _ hlt 0]
    rw [List.foldl_reverse]
    have := foldr_eq_ofDigits (Nat.digits 10 n)
    rw [(by funext x y; rfl :
      (fun (d : ℕ) (acc : ℕ) => acc * 10 + d) = fun d acc => (fun acc d => acc * 10 + d) acc d)] at this
    rw [this]
    exact Nat.ofDigits_digits 10 n
  · have h0 : n = 0 := by omega
    subst h0
    decide

theorem natToString_all_digits (n : ℕ) :
    ∀ c ∈ (natToString n).data, c.isDigit = true := by
  by_cases h1 : 1 ≤ n
  · have hchars : (natToString n).data = (Nat.digits 10 n).reverse.map Nat.digitChar := by
      unfold natToString
      rw [natToChars_eq_digits (n + 1) n (by omega) h1 []]
      simp
    rw [hchars]
    intro c hc
    obtain ⟨d, hd, rfl⟩ := List.mem_map.mp hc
    exact digitChar_isDigit d (Nat.digits_lt_base (by norm_num) (List.mem_reverse.mp hd))
  · have h0 : n = 0 := by omega
    subst h0
    decide

theorem parseDigits_cons (c : Char) (cs : List Char) :
    parseDigits (c :: cs) = parseDigitsAux 0 (c :: cs) := rfl

theorem pyInt_digits (l : List Char) (hne : l ≠ []) (hd : ∀ c ∈ l, c.isDigit = true) :
    pyInt ⟨l⟩ = .ok (((l.foldl (fun acc c => acc * 10 + (c.toNat - 48)) 0 : ℕ) : ℤ)) := by
  rcases l with _ | ⟨c, cs⟩
  · exact absurd rfl hne
  · have hc := hd c (List.mem_cons_self c cs)
    unfold pyInt
    simp only
    rw [if_neg (isDigit_ne_plus c hc), if_neg (isDigit_ne_minus c hc),
      parseDigits_cons, parseDigitsAux_all_digits (c :: cs) 0 hd]

theorem pyInt_natToString (n : ℕ) : pyInt (natToString n) = .ok ((n : ℤ)) := by
  have hne : (natToString n).data ≠ [] := by
    by_cases h1 : 1 ≤ n
    · have hchars : (natToString n).data = (Nat.digits 10 n).reverse.map Nat.digitChar := by
        unfold natToString
        rw [natToChars_eq_digits (n + 1) n (by omega) h1 []]
        simp
      rw [hchars]
      simp only [ne_eq, List.map_eq_nil_iff, List.reverse_eq_nil_iff]
      exact Nat.digits_ne_nil_iff_ne_zero.mpr (by omega)
    · have h0 : n = 0 := by omega
      subst h0
      decide
  have := pyInt_digits (natToString n).data hne (natToString_all_digits n)
  rw [natToString_foldl n] at this
  exact this

theorem splitOnCharAux_cons (sc c : Char) (rest acc : List Char) :
    splitOnCharAux sc (c :: rest) acc =
      if c = sc then acc :: splitOnCharAux sc rest []
      else splitOnCharAux sc rest (acc ++ [c]) := rfl

theorem splitOnCharAux_no_sep (sc : Char) :
    ∀ (s : List Char) (acc : List Char), (∀ c ∈ s, c ≠ sc) →
      splitOnCharAux sc s acc = [acc ++ s] := by
  intro s
  induction s with
  | nil => intro acc _; simp [splitOnCharAux]
  | cons c rest ih =>
    intro acc h
    rw [splitOnCharAux_cons, if_neg (h c (List.mem_cons_self c rest)),
      ih (acc ++ [c]) (fun c' hc' => h c' (List.mem_cons_of_mem c hc'))]
    simp

theorem splitOnCharAux_boundary (sc : Char) :
    ∀ (s1 : List Char) (s2 : List Char) (acc : List Char), (∀ c ∈ s1, c ≠ sc) →
      splitOnCharAux sc (s1 ++ sc :: s2) acc =
        (acc ++ s1) :: splitOnCharAux sc s2 [] := by
  intro s1
  induction s1 with
  | nil =>
    intro s2 acc _
    simp only [List.nil_append, List.append_nil]
    rw [splitOnCharAux_cons, if_pos rfl]
  | cons c rest ih =>
    intro s2 acc h
    simp only [List.cons_append]
    rw [splitOnCharAux_cons, if_neg (h c (List.mem_cons_self c rest)),
      ih s2 (acc ++ [c]) (fun c' hc' => h c' (List.mem_cons_of_mem c hc'))]
    simp

theorem noPairB_cons2 (c1 c2 c c' : Char) (rest : List Char) :
    noPairB c1 c2 (c :: c' :: rest) =
      (!(c = c1 && c' = c2) && noPairB c1 c2 (c' :: rest)) := rfl

theorem noPairB_head (c1 c2 c c' : Char) (rest : List Char)
    (h : noPairB c1 c2 (c :: c' :: rest) = true) : ¬ (c = c1 ∧ c' = c2) := by
  rw [noPairB_cons2] at h
  simp only [Bool.and_eq_true, Bool.not_eq_true'] at h
  intro hcc
  have hb : (decide (c = c1) && decide (c' = c2)) = true := by
    simp [hcc.1, hcc.2]
  rw [hb] at h
  exact absurd h.1 (by decide)

theorem noPairB_tail (c1 c2 c c' : Char) (rest : List Char)
    (h : noPairB c1 c2 (c :: c' :: rest) = true) :
    noPairB c1 c2 (c' :: rest) = true := by
  rw [noPairB_cons2] at h
  simp only [Bool.and_eq_true] at h
  exact h.2

theorem splitOnPairAux_cons2 (c1 c2 c c' : Char) (rest acc : List Char) :
    splitOnPairAux c1 c2 (c :: c' :: rest) acc =
      if c = c1 ∧ c' = c2 then acc :: splitOnPairAux c1 c2 rest []
      else splitOnPairAux c1 c2 (c' :: rest) (acc ++ [c]) := rfl

theorem splitOnPairAux_no_sep (c1 c2 : Char) :
    ∀ (s : List Char) (acc : List Char), noPairB c1 c2 s = true →
      splitOnPairAux c1 c2 s acc = [acc ++ s] := by
  intro s
  induction s with
  | nil => intro acc _; simp [splitOnPairAux]
  | cons c rest ih =>
    intro acc h
    rcases rest with _ | ⟨c', rest'⟩
    · simp [splitOnPairAux]
    · rw [splitOnPairAux_cons2, if_neg (noPairB_head c1 c2 c c' rest' h),
        ih (acc ++ [c]) (noPairB_tail c1 c2 c c' rest' h)]
      simp

theorem splitOnPairAux_boundary (c1 c2 : Char) (hcc : c1 ≠ c2) :
    ∀ (s1 : List Char) (s2 : List Char) (acc : List Char), noPairB c1 c2 s1 = true →
      splitOnPairAux c1 c2 (s1 ++ c1 :: c2 :: s2) acc =
        (acc ++ s1) :: splitOnPairAux c1 c2 s2 [] := by
  intro s1
  induction s1 with
  | nil =>
    intro s2 acc _
    simp only [List.nil_append, List.append_nil]
    rw [splitOnPairAux_cons2, if_pos ⟨rfl, rfl⟩]
  | cons c rest ih =>
    intro s2 acc h
    simp only [List.cons_append]
    rcases rest with _ | ⟨c', rest'⟩
    · simp only [List.nil_append]
      rw [splitOnPairAux_cons2, if_neg (fun hmm => hcc hmm.2)]
      have := ih s2 (acc ++ [c]) rfl
      simp only [List.nil_append, List.append_nil] at this
      rw [this]
    · have hnest : ((c' :: rest') ++ c1 :: c2 :: s2 : List Char) =
          c' :: (rest' ++ c1 :: c2 :: s2) := rfl
      rw [hnest, splitOnPairAux_cons2, if_neg (noPairB_head c1 c2 c c' rest' h)]
      have := ih s2 (acc ++ [c]) (noPairB_tail c1 c2 c c' rest' h)
      rw [hnest] at this
      rw [this]
      simp

theorem amountOk_cons2 (c c' : Char) (rest : List Char) :
    amountOk (c :: c' :: rest) =
      ((c.isDigit || (c = ',' && c'.isDigit)) && amountOk (c' :: rest)) := rfl

theorem amountOk_chars : ∀ (a : List Char), amountOk a = true →
    ∀ c ∈ a, c.isDigit = true ∨ c = ',' := by
  intro a
  induction a with
  | nil => intro h; exact absurd h (by decide)
  | cons c rest ih =>
    intro h x hx
    rcases rest with _ | ⟨c', rest'⟩
    · rcases List.mem_singleton.mp hx with rfl
      exact Or.inl (by simpa [amountOk] using h)
    · rw [amountOk_cons2] at h
      simp only [Bool.and_eq_true, Bool.or_eq_true] at h
      rcases List.mem_cons.mp hx with rfl | hx'
      · rcases h.1 with hd | hcomma
        · exact Or.inl hd
        · simp only [Bool.and_eq_true, decide_eq_true_eq] at hcomma
          exact Or.inr hcomma.1
      · exact ih h.2 x hx'

theorem amountOk_no_space (a : List Char) (h : amountOk a = true) :
    ∀ c ∈ a, c ≠ ' ' := by
  intro c hc
  rcases amountOk_chars a h c hc with hd | hcomma
  · exact isDigit_ne_space c hd
  · subst hcomma
    decide

theorem amountOk_noPair : ∀ (a : List Char), amountOk a = true →
    ∀ (t : List Char), noPairB ',' ' ' t = true →
      noPairB ',' ' ' (a ++ t) = true := by
  intro a
  induction a with
  | nil => intro h; exact absurd h (by decide)
  | cons c rest ih =>
    intro h t ht
    rcases rest with _ | ⟨c', rest'⟩
    · have hcd : c.isDigit = true := by simpa [amountOk] using h
      rcases t with _ | ⟨d, t'⟩
      · rfl
      · rw [List.singleton_append, noPairB_cons2]
        simp only [Bool.and_eq_true, Bool.not_eq_true']
        constructor
        · have : ¬ (c = ',') := isDigit_ne_comma c hcd
          simp [this]
        · exact ht
    · rw [amountOk_cons2] at h
      simp only [Bool.and_eq_true, Bool.or_eq_true] at h
      have htail : noPairB ',' ' ' ((c' :: rest') ++ t) = true := ih h.2 t ht
      rw [List.cons_append, List.cons_append, noPairB_cons2]
      rw [List.cons_append] at htail
      simp only [Bool.and_eq_true, Bool.not_eq_true']
      refine ⟨?_, htail⟩
      rcases h.1 with hd | hcomma
      · have : ¬ (c = ',') := isDigit_ne_comma c hd
        simp [this]
      · simp only [Bool.and_eq_true, decide_eq_true_eq] at hcomma
        have : ¬ (c' = ' ') := isDigit_ne_space c' hcomma.2
        simp [this]

theorem amountOk_filter_digits (a : List Char) (h : amountOk a = true) :
    ∀ c ∈ a.filter (fun c => c ≠ ','), c.isDigit = true := by
  intro c hc
  have hmem := (List.mem_filter.mp hc).1
  have hne := (List.mem_filter.mp hc).2
  rcases amountOk_chars a h c hmem with hd | hcomma
  · exact hd
  · simp [hcomma] at hne

theorem amountOk_filter_ne_nil : ∀ (a : List Char), amountOk a = true →
    a.filter (fun c => c ≠ ',') ≠ [] := by
  intro a
  induction a with
  | nil => intro h; exact absurd h (by decide)
  | cons c rest ih =>
    intro h
    rcases rest with _ | ⟨c', rest'⟩
    · have hcd : c.isDigit = true := by simpa [amountOk] using h
      have : ¬ (c = ',') := isDigit_ne_comma c hcd
      simp [List.filter, this]
    · rw [amountOk_cons2] at h
      simp only [Bool.and_eq_true] at h
      have htail := ih h.2
      intro hcontra
      rcases hfc : decide (c ≠ ',') with _ | _
      · rw [List.filter_cons, hfc] at hcontra
        simp at hcontra
        exact htail (by simpa using hcontra)
      · rw [List.filter_cons, hfc] at hcontra
        simp at hcontra

theorem asString_mk (l : List Char) : l.asString = (⟨l⟩ : String) := rfl

theorem mk_ne_empty (l : List Char) (h : l ≠ []) : (⟨l⟩ : String) ≠ "" := by
  intro hc
  exact h (congrArg String.data hc)

theorem joinSegs_ne_nil : ∀ (segs : List (List Char × List Char)),
    segs ≠ [] → (∀ p ∈ segs, p.1 ≠ []) → joinSegs segs ≠ [] := by
  intro segs hne hseg
  rcases segs with _ | ⟨⟨a, u⟩, rest⟩
  · exact absurd rfl hne
  · rcases rest with _ | ⟨q, rs⟩
    · have ha := hseg (a, u) (List.mem_singleton.mpr rfl)
      simp only [joinSegs]
      intro hc
      rcases List.append_eq_nil.mp hc with ⟨h1, _⟩
      exact ha h1
    · simp only [joinSegs]
      intro hc
      rcases List.append_eq_nil.mp hc with ⟨_, h2⟩
      exact absurd h2 (by simp)

theorem seg_noPair (a u : List Char) (ha : amountOk a = true)
    (hu : u = "gp".data ∨ u = "sp".data ∨ u = "cp".data) :
    noPairB ',' ' ' (a ++ ' ' :: u) = true := by
  refine amountOk_noPair a ha (' ' :: u) ?_
  rcases hu with rfl | rfl | rfl <;> decide

theorem joinSegs_split : ∀ (segs : List (List Char × List Char)), segs ≠ [] →
    (∀ p ∈ segs, amountOk p.1 = true ∧
      (p.2 = "gp".data ∨ p.2 = "sp".data ∨ p.2 = "cp".data)) →
    splitOnPairAux ',' ' ' (joinSegs segs) [] =
      segs.map (fun p => p.1 ++ ' ' :: p.2) := by
  intro segs
  induction segs with
  | nil => intro hne; exact absurd rfl hne
  | cons p rest ih =>
    intro _ hseg
    obtain ⟨a, u⟩ := p
    have hp := hseg (a, u) (List.mem_cons_self _ _)
    rcases rest with _ | ⟨q, rs⟩
    · simp only [joinSegs, List.map_cons, List.map_nil]
      rw [splitOnPairAux_no_sep ',' ' ' _ [] (seg_noPair a u hp.1 hp.2)]
      simp
    · simp only [joinSegs, List.map_cons]
      rw [List.append_assoc]
      have hb := splitOnPairAux_boundary ',' ' ' (by decide) (a ++ ' ' :: u)
        (joinSegs (q :: rs)) [] (seg_noPair a u hp.1 hp.2)
      simp only [List.append_assoc, List.cons_append, List.nil_append] at hb ⊢
      rw [hb, ih (by simp) (fun x hx => hseg x (List.mem_cons_of_mem _ hx))]
      rfl

theorem seg_words (a u : List Char) (ha : amountOk a = true)
    (hu : u = "gp".data ∨ u = "sp".data ∨ u = "cp".data) :
    pySplit " " (⟨a ++ ' ' :: u⟩ : String) = [(⟨a⟩ : String), (⟨u⟩ : String)] := by
  have h1 : pySplit " " (⟨a ++ ' ' :: u⟩ : String) =
      (splitOnCharAux ' ' (a ++ ' ' :: u) []).map List.asString := rfl
  rw [h1, splitOnCharAux_boundary ' ' a u [] (amountOk_no_space a ha),
    splitOnCharAux_no_sep ' ' u [] (by rcases hu with rfl | rfl | rfl <;> decide)]
  simp [asString_mk]

theorem seg_eval (a u : List Char) (ha : amountOk a = true)
    (hu : u = "gp".data ∨ u = "sp".data ∨ u = "cp".data) :
    (do
      let words := pySplit " " (⟨a ++ ' ' :: u⟩ : String)
      let amount ← pyInt (removeCommas (words.getD 0 ""))
      let unit ← match words.get? 1 with
        | some w => Except.ok w
        | none => Except.error "IndexError: list index out of range"
      let mult ← if unit = "cp" then Except.ok (1 : ℤ)
        else if unit = "sp" then Except.ok (10 : ℤ)
        else if unit = "gp" then Except.ok (100 : ℤ)
        else Except.error "KeyError"
      Except.ok (amount * mult) : Except String ℤ) =
      Except.ok (amount_val a * unit_mult_val u) := by
  rw [seg_words a u ha hu]
  have hamt : pyInt (removeCommas (⟨a⟩ : String)) = .ok (amount_val a) := by
    have hrc : removeCommas (⟨a⟩ : String) =
        (⟨a.filter (fun c => c ≠ ',')⟩ : String) := rfl
    rw [hrc, pyInt_digits _ (amountOk_filter_ne_nil a ha) (amountOk_filter_digits a ha)]
    rfl
  simp only [List.getD, List.get?, Option.getD_some]
  rw [hamt]
  simp only [except_bind_ok]
  rcases hu with rfl | rfl | rfl
  · rw [if_neg (by decide), if_neg (by decide), if_pos (by decide)]
    have h5 : unit_mult_val ("gp".data) = 100 := by decide
    rw [h5]
  · rw [if_neg (by decide), if_pos (by decide)]
    have h5 : unit_mult_val ("sp".data) = 10 := by decide
    rw [h5]
  · rw [if_pos (by decide)]
    have h5 : unit_mult_val ("cp".data) = 1 := by decide
    rw [h5]

theorem mapM_map_ok {α β γ : Type} (g : α → β) (f : β → Except String γ) (v : α → γ) :
    ∀ (l : List α), (∀ x ∈ l, f (g x) = .ok (v x)) →
      (l.map g).mapM f = .ok (l.map v) := by
  intro l
  induction l with
  | nil => intro _; rfl
  | cons x t ih =>
    intro h
    rw [List.map_cons, List.mapM_cons, h x (List.mem_cons_self x t), except_bind_ok,
      ih (fun x' hx' => h x' (List.mem_cons_of_mem x hx')), except_bind_ok, List.map_cons]
    rfl

theorem get_cost_in_cp_segs (segs : List (List Char × List Char))
    (hne : segs ≠ [])
    (hseg : ∀ p ∈ segs, amountOk p.1 = true ∧
      (p.2 = "gp".data ∨ p.2 = "sp".data ∨ p.2 = "cp".data)) :
    get_cost_in_cp (⟨joinSegs segs⟩ : String) =
      .ok ((segs.map (fun p => amount_val p.1 * unit_mult_val p.2)).sum) := by
  have hjn : joinSegs segs ≠ [] := by
    refine joinSegs_ne_nil segs hne (fun p hp => ?_)
    intro hcontra
    have := (hseg p hp).1
    rw [hcontra] at this
    exact absurd this (by decide)
  unfold get_cost_in_cp
  rw [if_neg (mk_ne_empty _ hjn)]
  have hps : pySplit ", " (⟨joinSegs segs⟩ : String) =
      (splitOnPairAux ',' ' ' (joinSegs segs) []).map List.asString := rfl
  simp only [hps, joinSegs_split segs hne hseg]
  rw [List.map_map]
  rw [mapM_map_ok (List.asString ∘ fun p => p.1 ++ ' ' :: p.2) _
    (fun p => amount_val p.1 * unit_mult_val p.2) segs
    (fun p hp => seg_eval p.1 p.2 (hseg p hp).1 (hseg p hp).2)]
  rfl

theorem tdiv_coe (m k : ℕ) : Int.tdiv ((m : ℤ)) ((k : ℤ)) = (((m / k : ℕ) : ℤ)) := rfl

theorem emod_coe (m k : ℕ) : Int.emod ((m : ℤ)) ((k : ℤ)) = (((m % k : ℕ) : ℤ)) := rfl

theorem str_append_data (s t : String) : s ++ t = (⟨s.data ++ t.data⟩ : String) := rfl

theorem pyStr_coe (k : ℕ) : pyStr ((k : ℤ)) = natToString k := by
  unfold pyStr
  rw [if_neg (by omega)]
  rw [Int.toNat_natCast]

theorem tdiv_coe100 (m : ℕ) : Int.tdiv ((m : ℤ)) 100 = (((m / 100 : ℕ) : ℤ)) := rfl

theorem tdiv_coe10 (m : ℕ) : Int.tdiv ((m : ℤ)) 10 = (((m / 10 : ℕ) : ℤ)) := rfl

theorem emod_coe100 (m : ℕ) : Int.emod ((m : ℤ)) 100 = (((m % 100 : ℕ) : ℤ)) := rfl

theorem emod_coe10 (m : ℕ) : Int.emod ((m : ℤ)) 10 = (((m % 10 : ℕ) : ℤ)) := rfl

theorem amountOk_all_digits : ∀ (l : List Char), l ≠ [] →
    (∀ c ∈ l, c.isDigit = true) → amountOk l = true := by
  intro l
  induction l with
  | nil => intro h; exact absurd rfl h
  | cons c rest ih =>
    intro _ hd
    rcases rest with _ | ⟨c', rest'⟩
    · simpa [amountOk] using hd c (List.mem_cons_self c [])
    · rw [amountOk_cons2]
      simp only [Bool.and_eq_true, Bool.or_eq_true]
      exact ⟨Or.inl (hd c (List.mem_cons_self _ _)),
        ih (by simp) (fun x hx => hd x (List.mem_cons_of_mem c hx))⟩

theorem amountOk_natToString (k : ℕ) : amountOk ((natToString k).data) = true := by
  refine amountOk_all_digits _ ?_ (natToString_all_digits k)
  intro hc
  have := natToString_foldl k
  rw [hc] at this
  simp only [List.foldl_nil] at this
  subst this
  exact absurd hc (by decide)

theorem amount_val_natToString (k : ℕ) : amount_val ((natToString k).data) = ((k : ℤ)) := by
  unfold amount_val
  have hfil : (natToString k).data.filter (fun c => c ≠ ',') = (natToString k).data := by
    refine List.filter_eq_self.mpr ?_
    intro c hc
    simpa using isDigit_ne_comma c (natToString_all_digits k c hc)
  rw [hfil, natToString_foldl k]

theorem segsOf_ok (n : ℕ) : ∀ p ∈ segsOf n, amountOk p.1 = true ∧
    (p.2 = "gp".data ∨ p.2 = "sp".data ∨ p.2 = "cp".data) := by
  intro p hp
  unfold segsOf at hp
  rcases List.mem_cons.mp hp with rfl | hp'
  · exact ⟨amountOk_natToString _, Or.inl rfl⟩
  · rcases List.mem_append.mp hp' with h1 | h2
    · by_cases hsp : (n % 100) / 10 > 0
      · rw [if_pos hsp] at h1
        rcases List.mem_singleton.mp h1 with rfl
        exact ⟨amountOk_natToString _, Or.inr (Or.inl rfl)⟩
      · rw [if_neg hsp] at h1
        exact absurd h1 (by simp)
    · by_cases hcp : n % 10 > 0
      · rw [if_pos hcp] at h2
        rcases List.mem_singleton.mp h2 with rfl
        exact ⟨amountOk_natToString _, Or.inr (Or.inr rfl)⟩
      · rw [if_neg hcp] at h2
        exact absurd h2 (by simp)

theorem mk_data (l : List Char) : ((⟨l⟩ : String)).data = l := rfl

theorem render_eq_joinSegs (n : ℕ) :
    render_gp_sp_cp ((n : ℤ)) = (⟨joinSegs (segsOf n)⟩ : String) := by
  have d1 : (" gp" : String).data = [' ', 'g', 'p'] := rfl
  have d2 : (" sp" : String).data = [' ', 's', 'p'] := rfl
  have d3 : (" cp" : String).data = [' ', 'c', 'p'] := rfl
  have d4 : (", " : String).data = [',', ' '] := rfl
  have d5 : ("gp" : String).data = ['g', 'p'] := rfl
  have d6 : ("sp" : String).data = ['s', 'p'] := rfl
  have d7 : ("cp" : String).data = ['c', 'p'] := rfl
  simp only [render_gp_sp_cp, segsOf]
  rw [tdiv_coe100, emod_coe100, tdiv_coe10, emod_coe10]
  by_cases hsp : (n % 100) / 10 > 0 <;> by_cases hcp : n % 10 > 0
  · rw [if_pos (by exact_mod_cast hsp : ((((n % 100) / 10 : ℕ) : ℤ)) > 0),
      if_pos (by exact_mod_cast hcp : (((n % 10 : ℕ) : ℤ)) > 0),
      if_pos hsp, if_pos hcp]
    simp only [pyStr_coe, joinSegs, List.singleton_append, List.cons_append,
      List.nil_append, str_append_data, mk_data, d1, d2, d3, d4, d5, d6, d7]
    simp [List.append_assoc]
  · rw [if_pos (by exact_mod_cast hsp : ((((n % 100) / 10 : ℕ) : ℤ)) > 0),
      if_neg (by exact_mod_cast hcp : ¬ ((((n % 10 : ℕ) : ℤ)) > 0)),
      if_pos hsp, if_neg hcp]
    simp only [pyStr_coe, joinSegs, List.singleton_append, List.cons_append,
      List.nil_append, List.append_nil, str_append_data, mk_data, d1, d2, d3, d4, d5, d6, d7]
    simp [List.append_assoc]
  · rw [if_neg (by exact_mod_cast hsp : ¬ ((((n % 100) / 10 : ℕ) : ℤ)) > 0),
      if_pos (by exact_mod_cast hcp : (((n % 10 : ℕ) : ℤ)) > 0),
      if_neg hsp, if_pos hcp]
    simp only [pyStr_coe, joinSegs, List.singleton_append, List.cons_append,
      List.nil_append, str_append_data, mk_data, d1, d2, d3, d4, d5, d6, d7]
    simp [List.append_assoc]
  · rw [if_neg (by exact_mod_cast hsp : ¬ ((((n % 100) / 10 : ℕ) : ℤ)) > 0),
      if_neg (by exact_mod_cast hcp : ¬ ((((n % 10 : ℕ) : ℤ)) > 0)),
      if_neg hsp, if_neg hcp]
    simp only [pyStr_coe, joinSegs, List.singleton_append, List.cons_append,
      List.nil_append, List.append_nil, str_append_data, mk_data, d1, d2, d3, d4, d5, d6, d7]

theorem segsOf_sum (n : ℕ) :
    ((segsOf n).map (fun p => amount_val p.1 * unit_mult_val p.2)).sum = ((n : ℤ)) := by
  have hg : unit_mult_val ("gp".data) = 100 := by decide
  have hs : unit_mult_val ("sp".data) = 10 := by decide
  have hc : unit_mult_val ("cp".data) = 1 := by decide
  unfold segsOf
  by_cases hsp : (n % 100) / 10 > 0 <;> by_cases hcp : n % 10 > 0
  · rw [if_pos hsp, if_pos hcp]
    simp only [List.singleton_append, List.cons_append, List.nil_append, List.map_cons,
      List.map_nil, List.sum_cons, List.sum_nil, amount_val_natToString, hg, hs, hc]
    omega
  · rw [if_pos hsp, if_neg hcp]
    simp only [List.singleton_append, List.cons_append, List.nil_append, List.append_nil,
      List.map_cons, List.map_nil, List.sum_cons, List.sum_nil, amount_val_natToString, hg, hs]
    omega
  · rw [if_neg hsp, if_pos hcp]
    simp only [List.singleton_append, List.cons_append, List.nil_append, List.map_cons,
      List.map_nil, List.sum_cons, List.sum_nil, amount_val_natToString, hg, hc]
    omega
  · rw [if_neg hsp, if_neg hcp]
    simp only [List.nil_append, List.append_nil, List.map_cons, List.map_nil,
      List.sum_cons, List.sum_nil, amount_val_natToString, hg]
    omega

/-- C4: composite price computation is a lossless round trip through copper
pieces.  Parsing the rendered string of any non-negative copper total n
(gp = n div 100 always shown, sp = (n mod 100) div 10 and cp = n mod 10
omitted when zero) yields n back; render-then-parse-then-render is the
identity on canonical price strings; and a composite's rendered price is the
rendering of the exact copper-sum of its parts' parsed prices. -/
theorem c4_price_round_trip :
    (∀ n : ℕ, get_cost_in_cp (render_gp_sp_cp ((n : ℤ))) = .ok ((n : ℤ))) ∧
    (∀ s : String, (∃ n : ℕ, s = render_gp_sp_cp ((n : ℤ))) →
      Except.map render_gp_sp_cp (get_cost_in_cp s) = .ok s) ∧
    (∀ (iwr : ItemWithRunes) (costs : List ℤ),
      iwr.get_all_as_list.mapM (fun it => get_cost_in_cp it.price_raw) = Except.ok costs →
      iwr.get_gp_cost = .ok (render_gp_sp_cp costs.sum)) := by
  have hmain : ∀ n : ℕ, get_cost_in_cp (render_gp_sp_cp ((n : ℤ))) = .ok ((n : ℤ)) := by
    intro n
    rw [render_eq_joinSegs n,
      get_cost_in_cp_segs (segsOf n) (by simp [segsOf]) (segsOf_ok n), segsOf_sum n]
  refine ⟨hmain, ?_, ?_⟩
  · rintro s ⟨n, rfl⟩
    rw [hmain n]
    rfl
  · intro iwr costs h
    unfold ItemWithRunes.get_gp_cost
    rw [h, except_bind_ok]

/-- C4 witness: the round trip at the copper total 1203 ("12 gp, 3 cp"),
the idempotence at that canonical string, and the composite rendering for a
one-part composite priced "1 gp". -/
theorem c4_price_round_trip_witness :
    (get_cost_in_cp (render_gp_sp_cp (((1203 : ℕ) : ℤ))) = .ok (((1203 : ℕ) : ℤ)) ∧
     Except.map render_gp_sp_cp (get_cost_in_cp "12 gp, 3 cp") = .ok "12 gp, 3 cp" ∧
     (ItemWithRunes.mk ⟨"Club", "common", 0, "/c", "weapon", "", "1 gp", [], [], ""⟩
        none none ⟨"Weapon Potency", "Striking", 10⟩ []).get_gp_cost =
       .ok (render_gp_sp_cp (([(100 : ℤ)]).sum))) ∧
    get_cost_in_cp "12 gp, 3 cp" = .ok 1203 :=
  ⟨⟨c4_price_round_trip.1 1203,
    c4_price_round_trip.2.1 "12 gp, 3 cp" ⟨1203, by decide⟩,
    c4_price_round_trip.2.2 _ [(100 : ℤ)] (by rfl)⟩,
   by rfl⟩

/-- C8 counterexample: the cost parser raises (ValueError from int()) on the
malformed price "abc" instead of degrading to a zero cost; nor do all other
malformed prices degrade to 0 or raise: trailing tokens are silently ignored
("5 gp extra" parses as 500 cp) and int() accepts a sign prefix ("+0 gp"
parses as 0). -/
theorem c8_parser_counterexample :
    get_cost_in_cp "abc" = .error "ValueError: invalid literal for int" ∧
    get_cost_in_cp "5 gp extra" = .ok 500 ∧
    get_cost_in_cp "+0 gp" = .ok 0 := ⟨rfl, rfl, rfl⟩

/-- C8 (amended): the parser returns 0 on the empty string, and on every
well-formed price — one or more comma-space-separated segments, each a
comma-grouped digit amount, a space, and one of the units gp, sp, cp, in any
order and multiplicity — it returns the segments' non-negative copper total.
Malformed text is not degraded to 0: some inputs raise (see the
counterexample) and others are silently accepted. -/
theorem c8_parser_amended (segs : List (List Char × List Char))
    (hne : segs ≠ [])
    (hseg : ∀ p ∈ segs, amountOk p.1 = true ∧
      (p.2 = "gp".data ∨ p.2 = "sp".data ∨ p.2 = "cp".data)) :
    get_cost_in_cp "" = .ok 0 ∧
    get_cost_in_cp ((⟨joinSegs segs⟩ : String)) =
      .ok (((segs.map (fun p => amount_val p.1 * unit_mult_val p.2)).sum)) ∧
    0 ≤ ((segs.map (fun p => amount_val p.1 * unit_mult_val p.2)).sum) := by
  refine ⟨rfl, get_cost_in_cp_segs segs hne hseg, ?_⟩
  refine List.sum_nonneg ?_
  intro x hx
  obtain ⟨p, hp, rfl⟩ := List.mem_map.mp hx
  have h1 : 0 ≤ amount_val p.1 := Int.natCast_nonneg _
  have h2 : 0 ≤ unit_mult_val p.2 := by
    rcases (hseg p hp).2 with h | h | h <;> rw [h] <;> decide
  exact mul_nonneg h1 h2

/-- C8 witness: the two-segment price "1,000 gp, 5 sp" (with a
thousands-separator comma) parses to the copper total 100050. -/
theorem c8_parser_amended_witness :
    (get_cost_in_cp "" = .ok 0 ∧
     get_cost_in_cp ((⟨joinSegs [(("1,000" : String).data, ("gp" : String).data),
        (("5" : String).data, ("sp" : String).data)]⟩ : String)) =
       .ok ((([(("1,000" : String).data, ("gp" : String).data),
          (("5" : String).data, ("sp" : String).data)].map
            (fun p => amount_val p.1 * unit_mult_val p.2)).sum)) ∧
     0 ≤ (([(("1,000" : String).data, ("gp" : String).data),
        (("5" : String).data, ("sp" : String).data)].map
          (fun p => amount_val p.1 * unit_mult_val p.2)).sum)) ∧
    get_cost_in_cp "1,000 gp, 5 sp" = .ok 100050 :=
  ⟨c8_parser_amended _ (by decide) (by decide), by rfl⟩

theorem zip_map_all {α : Type} (f : α → α) (p : α → α → Bool) :
    ∀ l : List α, (∀ x ∈ l, p (f x) x = true) →
      (((l.map f).zip l).all (fun q => p q.1 q.2)) = true := by
  intro l
  induction l with
  | nil => intro _; rfl
  | cons x t ih =>
    intro h
    simp only [List.map_cons, List.zip_cons_cons, List.all_cons, Bool.and_eq_true]
    exact ⟨h x (List.mem_cons_self x t), ih (fun x' hx' => h x' (List.mem_cons_of_mem x hx'))⟩

/-- C9 counterexample: a catalog of one equipment item with url "/x" that
passes the source filter, and a request with all rarity counts zero.  The
call completes normally (it returns an empty ok result), yet the loaded
catalog item's url has been rewritten in place to the absolute site url: the
catalog is not read-only. -/
theorem c9_catalog_immutable_counterexample :
    ((fun r => (exceptIsOk r.1, r.2.map (fun it => it.url)))
      (get_random_items_by_request
        ⟨fun c => if c = "equipment" then
            [⟨"Club", "common", 0, "/x", "equipment", "", "", ["S"], [], ""⟩] else [],
          ["S"]⟩
        (fun _ _ => "")
        ⟨some ⟨⟨0, 0, 0, 0⟩, ⟨[], [], ["equipment"]⟩, ⟨[]⟩⟩, none⟩
        ⟨fun _ => 0, 0⟩)) = (true, ["https://2e.aonprd.com/x"]) := rfl

/-- C9 (amended): after get_random_items_by_request with an equipment
request, every loaded catalog item keeps its name, rarity, level, price,
source, category, traits, subcategory and id unchanged, and its url is
rewritten in place to the absolute site url exactly when the item passes the
source and trait filters, and untouched exactly when it fails them; the
composite branch mutates nothing. -/
theorem c9_catalog_immutable_amended (svc : AonSearchService)
    (rx : String → String → String) (esr : EquipmentSearchRequest)
    (irs : Option ItemWithRunesSearchRequest) (g : Rng) :
    ((get_random_items_by_request svc rx ⟨some esr, irs⟩ g).2.map
        (fun it => (it.name, it.rarity, it.level, it.price_raw, it.source,
          it.category, it.trait, it.item_subcategory, it.id))) =
      ((load_items_by_categories svc.aon_item_loader esr.traits.categories).map
        (fun it => (it.name, it.rarity, it.level, it.price_raw, it.source,
          it.category, it.trait, it.item_subcategory, it.id))) ∧
    (((get_random_items_by_request svc rx ⟨some esr, irs⟩ g).2.zip
        (load_items_by_categories svc.aon_item_loader esr.traits.categories)).all
      (fun q =>
        if passes_source_filter svc q.2 && passes_required_traits esr.traits q.2 &&
            passes_exclude_traits esr.traits q.2
        then q.1.url == "https://2e.aonprd.com" ++ q.2.url
        else q.1.url == q.2.url)) = true := by
  have hpool : (get_random_items_by_request svc rx ⟨some esr, irs⟩ g).2 =
      (load_items_by_categories svc.aon_item_loader esr.traits.categories).map
        (fun it =>
          if passes_source_filter svc it && passes_required_traits esr.traits it &&
              passes_exclude_traits esr.traits it
          then mutate_url it else it) := rfl
  rw [hpool]
  constructor
  · rw [List.map_map]
    refine List.map_congr_left ?_
    intro it _
    simp only [Function.comp_apply]
    by_cases hc : (passes_source_filter svc it && passes_required_traits esr.traits it &&
        passes_exclude_traits esr.traits it) = true
    · rw [if_pos hc]
      rfl
    · rw [if_neg hc]
  · refine zip_map_all _
      (fun a b : AonItemJson =>
        if passes_source_filter svc b && passes_required_traits esr.traits b &&
            passes_exclude_traits esr.traits b
        then a.url == "https://2e.aonprd.com" ++ b.url
        else a.url == b.url) _ ?_
    intro it _
    by_cases hc : (passes_source_filter svc it && passes_required_traits esr.traits it &&
        passes_exclude_traits esr.traits it) = true
    · simp [hc, mutate_url]
    · simp [hc]
